import Mathlib

/-!
Verification of the ElementalScope spatial registration engine.

This file gives a shallow embedding of the core algorithms of the
repository and settles the frozen claims about them:

* utils/matrix.py : add_small_to_big_matrix_2d_periodically, the periodic
  matrix embedder (size check, overflow flags, stepwise range splitting,
  additive writes through numpy fancy indexing);
* main.py : get_boundary and find_border (boundary detection),
  precondition_right (display offset arithmetic), the per-field body of
  stitch (sum, overlap tie-break, crop, transpose), get_task_name;
* utils/string.py : get_common_prefix.

Matrices are embedded as a structure holding the two dimensions and a
total entry function; machine floats appearing in the sources are exact
halves or exact small decimals and are modelled as rationals, with the
Python round function modelled as round half to even.
-/

/-- A 2D numeric array: dimensions plus a total entry function.  Cells
outside the rectangle given by rows and cols are irrelevant padding. -/
structure Mat where
  rows : ℕ
  cols : ℕ
  entry : ℕ → ℕ → ℚ

/-- The list of integers from a (inclusive) to b (exclusive), the Python
expression list(range(a, b)). -/
def intRange (a b : ℤ) : List ℤ :=
  (List.range (b - a).toNat).map (fun k : ℕ => a + (k : ℤ))

/-- Validity of an integer index into a numpy axis of size dim: numpy
accepts i with -dim <= i < dim and raises IndexError otherwise. -/
def validIdx (dim : ℕ) (i : ℤ) : Bool :=
  decide (-(dim : ℤ) ≤ i) && decide (i < (dim : ℤ))

/-- Effective nonnegative position of an integer index into a numpy axis
of size dim: negative indices count from the end. -/
def effIdx (dim : ℕ) (i : ℤ) : ℕ :=
  if i < 0 then (i + dim).toNat else i.toNat

/-- Errors raised by the numpy fancy indexing assignment. -/
inductive IxError where
  | indexError : IxError
  | shapeMismatch : IxError
deriving DecidableEq

/-- Given the zipped list of (destination index, source index) pairs along
one axis, the source index paired with the last destination index that
lands on cell i.  When numpy scatters a fancy-indexed assignment with
duplicate destination indices the last write wins, so the contribution to
a cell comes from the last matching pair. -/
def lastSrc (dim : ℕ) (pairs : List (ℤ × ℤ)) (i : ℕ) : Option ℤ :=
  ((pairs.filter (fun ds => decide (effIdx dim ds.1 = i))).getLast?).map Prod.snd

/-- Result matrix of the numpy statement
big[np.ix_(ys, xs)] += small[np.ix_(ysrc, xsrc)], assuming all indices
are valid.  Cell (i, j) of the result is the original cell plus the
contribution selected by the last pair of fancy indices hitting it; the
right hand side is read before any write, so all contributions are taken
from the original matrices. -/
def ixAddOk (big small : Mat) (ys xs ysrc xsrc : List ℤ) : Mat :=
  { big with entry := fun i j =>
      match lastSrc big.rows (ys.zip ysrc) i, lastSrc big.cols (xs.zip xsrc) j with
      | some sy, some sx =>
          big.entry i j + small.entry (effIdx small.rows sy) (effIdx small.cols sx)
      | _, _ => big.entry i j }

/-- The numpy statement big[np.ix_(ys, xs)] += small[np.ix_(ysrc, xsrc)]:
checks that the two selections have the same shape and that every index
is in range, then performs the additive scatter.  A failed check raises
before any element is written. -/
def ixAdd (big small : Mat) (ys xs ysrc xsrc : List ℤ) : Except IxError Mat :=
  if ys.length = ysrc.length ∧ xs.length = xsrc.length then
    if (ys.all (validIdx big.rows) ∧ xs.all (validIdx big.cols) ∧
        ysrc.all (validIdx small.rows) ∧ xsrc.all (validIdx small.cols)) then
      .ok (ixAddOk big small ys xs ysrc xsrc)
    else .error .indexError
  else .error .shapeMismatch

/-- Overflow test of the left canvas edge, matrix.py line 109:
add_x - length < 0 with length = cols_small // 2. -/
def overflowLeftB (cols_small : ℕ) (add_x : ℤ) : Bool :=
  decide (add_x - ((cols_small / 2 : ℕ) : ℤ) < 0)

/-- Overflow test of the right canvas edge, matrix.py line 110:
add_x + length > cols_big - 1. -/
def overflowRightB (cols_big cols_small : ℕ) (add_x : ℤ) : Bool :=
  decide (add_x + ((cols_small / 2 : ℕ) : ℤ) > (cols_big : ℤ) - 1)

/-- Overflow test of the top canvas edge, matrix.py line 111:
add_y - height < 0 with height = rows_small // 2. -/
def overflowTopB (rows_small : ℕ) (add_y : ℤ) : Bool :=
  decide (add_y - ((rows_small / 2 : ℕ) : ℤ) < 0)

/-- Overflow test of the bottom canvas edge, matrix.py line 112:
add_y + height > rows_big - 1. -/
def overflowBottomB (rows_big rows_small : ℕ) (add_y : ℤ) : Bool :=
  decide (add_y + ((rows_small / 2 : ℕ) : ℤ) > (rows_big : ℤ) - 1)

/-- The four stepwise index lists stored by the overflow branches of
matrix.py: destination part A, source part A, destination part B, source
part B, in the order the Python code stores them in its list of four. -/
structure StepLists where
  d0 : List ℤ
  s1 : List ℤ
  d2 : List ℤ
  s3 : List ℤ

/-- Stepwise x ranges for the overflow_left branch, matrix.py lines
127-136. -/
def xStepwiseLeft (cols_big cols_small : ℕ) (start_x end_x : ℤ) : StepLists :=
  let x_right := intRange 0 (end_x + 1)
  let x_right_length : ℤ := x_right.length
  let x_left_length : ℤ := (cols_small : ℤ) - x_right_length
  let x_left_start := start_x + cols_big
  let x_left_end := x_left_start + x_left_length - 1
  let x_left := intRange x_left_start (x_left_end + 1)
  let x_left_small := intRange 0 x_left_length
  let x_right_small := intRange x_left_length cols_small
  ⟨x_left, x_left_small, x_right, x_right_small⟩

/-- Stepwise x ranges for the overflow_right branch, matrix.py lines
138-147. -/
def xStepwiseRight (cols_big cols_small : ℕ) (start_x : ℤ) : StepLists :=
  let x_left := intRange start_x cols_big
  let x_left_length : ℤ := x_left.length
  let x_right_length : ℤ := (cols_small : ℤ) - x_left_length
  let x_right := intRange 0 (0 + x_right_length)
  let x_left_small := intRange 0 x_left_length
  let x_right_small := intRange x_left_length cols_small
  ⟨x_left, x_left_small, x_right, x_right_small⟩

/-- Stepwise y ranges for the overflow_top branch, matrix.py lines
149-158.  Note the source computes y_top_end without subtracting one and
uses range(y_top_start, y_top_end). -/
def yStepwiseTop (rows_big rows_small : ℕ) (start_y end_y : ℤ) : StepLists :=
  let y_bottom := intRange 0 (end_y + 1)
  let y_bottom_length : ℤ := y_bottom.length
  let y_top_length : ℤ := (rows_small : ℤ) - y_bottom_length
  let y_top_start := start_y + rows_big
  let y_top_end := y_top_start + y_top_length
  let y_top := intRange y_top_start y_top_end
  let y_top_small := intRange 0 y_top_length
  let y_bottom_small := intRange y_top_length rows_small
  ⟨y_top, y_top_small, y_bottom, y_bottom_small⟩

/-- Stepwise y ranges for the overflow_bottom branch, matrix.py lines
160-169. -/
def yStepwiseBottom (rows_big rows_small : ℕ) (start_y : ℤ) : StepLists :=
  let y_top := intRange start_y rows_big
  let y_top_length : ℤ := y_top.length
  let y_bottom_length : ℤ := (rows_small : ℤ) - y_top_length
  let y_bottom_start : ℤ := 0
  let y_bottom_end := y_bottom_start + y_bottom_length - 1
  let y_bottom := intRange y_bottom_start (y_bottom_end + 1)
  let y_bottom_small := intRange 0 y_bottom_length
  let y_top_small := intRange y_bottom_length rows_small
  ⟨y_top, y_top_small, y_bottom, y_bottom_small⟩

/-- Errors of the embedder: the explicit ValueError raised by its size
check, or an error raised by one of its numpy indexing statements. -/
inductive EmbedError where
  | sizeMismatch : EmbedError
  | ixErr : IxError → EmbedError
deriving DecidableEq

/-- Result of the embedder: either an error paired with the canvas as
mutated so far when the exception was raised (the Python function mutates
big_matrix in place, so a caller observes that canvas), or the final
canvas together with the x and y index lists of the footprint. -/
abbrev EmbedResult := Except (EmbedError × Mat) (Mat × List ℤ × List ℤ)

/-- Shallow embedding of add_small_to_big_matrix_2d_periodically from
utils/matrix.py lines 82-215.  The small matrix is added to the big
matrix centered at (add_x, add_y); writes that straddle a canvas edge are
split into stepwise sub-ranges; added_flag False skips every write.  Each
numpy assignment of the source is rendered as one ixAdd call, where a
full-axis selection such as small_matrix[:, xs] is written with the full
source range for that axis. -/
def add_small_to_big_matrix_2d_periodically
    (big_matrix small_matrix : Mat) (add_x add_y : ℤ) (added_flag : Bool) :
    EmbedResult :=
  let rows_small := small_matrix.rows
  let cols_small := small_matrix.cols
  let rows_big := big_matrix.rows
  let cols_big := big_matrix.cols
  if rows_big < rows_small ∨ cols_big < cols_small then
    .error (.sizeMismatch, big_matrix)
  else
    let length : ℕ := cols_small / 2
    let height : ℕ := rows_small / 2
    let start_x : ℤ := add_x - length
    let end_x : ℤ := start_x + cols_small - 1
    let x_range := intRange start_x (end_x + 1)
    let start_y : ℤ := add_y - height
    let end_y : ℤ := start_y + rows_small - 1
    let y_range := intRange start_y (end_y + 1)
    let overflow_left := overflowLeftB cols_small add_x
    let overflow_right := overflowRightB cols_big cols_small add_x
    let overflow_top := overflowTopB rows_small add_y
    let overflow_bottom := overflowBottomB rows_big rows_small add_y
    let overflow_x := overflow_left || overflow_right
    let overflow_y := overflow_top || overflow_bottom
    if overflow_x = false ∧ overflow_y = false then
      if added_flag then
        match ixAdd big_matrix small_matrix y_range x_range
            (intRange 0 rows_small) (intRange 0 cols_small) with
        | .error e => .error (.ixErr e, big_matrix)
        | .ok b1 => .ok (b1, x_range, y_range)
      else .ok (big_matrix, x_range, y_range)
    else
      let xsw :=
        if overflow_right then xStepwiseRight cols_big cols_small start_x
        else if overflow_left then xStepwiseLeft cols_big cols_small start_x end_x
        else ⟨[], [], [], []⟩
      let ysw :=
        if overflow_bottom then yStepwiseBottom rows_big rows_small start_y
        else if overflow_top then yStepwiseTop rows_big rows_small start_y end_y
        else ⟨[], [], [], []⟩
      if overflow_x = true ∧ overflow_y = false then
        if added_flag then
          match ixAdd big_matrix small_matrix y_range xsw.d0
              (intRange 0 rows_small) xsw.s1 with
          | .error e => .error (.ixErr e, big_matrix)
          | .ok b1 =>
            match ixAdd b1 small_matrix y_range xsw.d2
                (intRange 0 rows_small) xsw.s3 with
            | .error e => .error (.ixErr e, b1)
            | .ok b2 => .ok (b2, xsw.d0 ++ xsw.d2, y_range)
        else .ok (big_matrix, xsw.d0 ++ xsw.d2, y_range)
      else if overflow_x = false ∧ overflow_y = true then
        if added_flag then
          match ixAdd big_matrix small_matrix ysw.d0 x_range
              ysw.s1 (intRange 0 cols_small) with
          | .error e => .error (.ixErr e, big_matrix)
          | .ok b1 =>
            match ixAdd b1 small_matrix ysw.d2 x_range
                ysw.s3 (intRange 0 cols_small) with
            | .error e => .error (.ixErr e, b1)
            | .ok b2 => .ok (b2, x_range, ysw.d0 ++ ysw.d2)
        else .ok (big_matrix, x_range, ysw.d0 ++ ysw.d2)
      else
        if added_flag then
          match ixAdd big_matrix small_matrix ysw.d0 xsw.d0 ysw.s1 xsw.s1 with
          | .error e => .error (.ixErr e, big_matrix)
          | .ok b1 =>
            match ixAdd b1 small_matrix ysw.d2 xsw.d0 ysw.s3 xsw.s1 with
            | .error e => .error (.ixErr e, b1)
            | .ok b2 =>
              match ixAdd b2 small_matrix ysw.d0 xsw.d2 ysw.s1 xsw.s3 with
              | .error e => .error (.ixErr e, b2)
              | .ok b3 =>
                match ixAdd b3 small_matrix ysw.d2 xsw.d2 ysw.s3 xsw.s3 with
                | .error e => .error (.ixErr e, b3)
                | .ok b4 => .ok (b4, xsw.d0 ++ xsw.d2, ysw.d0 ++ ysw.d2)
        else .ok (big_matrix, xsw.d0 ++ xsw.d2, ysw.d0 ++ ysw.d2)

/-- Whether an embed call returned normally. -/
def isOkE (r : EmbedResult) : Bool :=
  match r with
  | .ok _ => true
  | .error _ => false

/-- The footprint index lists of a normal embed result. -/
def exceptLists (r : EmbedResult) : Option (List ℤ × List ℤ) :=
  match r with
  | .ok (_, xl, yl) => some (xl, yl)
  | .error _ => none

/-- The canvas of a normal embed result. -/
def exceptCanvas (r : EmbedResult) : Option Mat :=
  match r with
  | .ok (b, _, _) => some b
  | .error _ => none

/-- Whether an embed call raised the size check ValueError. -/
def isSizeMismatch (r : EmbedResult) : Bool :=
  match r with
  | .error (.sizeMismatch, _) => true
  | _ => false

/-- The canvas carried by an embed error, as mutated when the exception
was raised. -/
def errCanvas (r : EmbedResult) : Option Mat :=
  match r with
  | .error (_, m) => some m
  | .ok _ => none

/-- Sequencing of two embed calls on the same arguments, the first
feeding its canvas to the second; models running the Python function
twice in a row on the same (mutable) canvas object. -/
def embedTwice (big small : Mat) (add_x add_y : ℤ) (flag1 flag2 : Bool) :
    EmbedResult :=
  match add_small_to_big_matrix_2d_periodically big small add_x add_y flag1 with
  | .ok (b, _, _) => add_small_to_big_matrix_2d_periodically b small add_x add_y flag2
  | .error e => .error e

/-- Shallow embedding of find_border from main.py lines 459-482.  The
first loop scans the indices 1 .. len-1 forward for the first nonzero sum
and returns that index minus one; the second loop scans the same indices
backward for the first nonzero sum and returns that index plus one; both
default to the sentinel -1. -/
def find_border (sums : List ℕ) : ℤ × ℤ :=
  let idxs := List.range' 1 (sums.length - 1)
  let idx1 : ℤ :=
    match idxs.find? (fun i => decide (sums.getD i 0 ≠ 0)) with
    | some i => (i : ℤ) - 1
    | none => -1
  let idx2 : ℤ :=
    match idxs.reverse.find? (fun i => decide (sums.getD i 0 ≠ 0)) with
    | some i => (i : ℤ) + 1
    | none => -1
  (idx1, idx2)

/-- Shallow embedding of get_boundary from main.py lines 428-457 for a
2D (already gray) image.  The image is binarized by strict comparison
with the threshold; the variable named row_sum in the source sums along
axis 0 and therefore holds one count per column, and symmetrically for
col_sum; left and right bounds come from the per-column counts, top and
bottom from the per-row counts. -/
def get_boundary (img : Mat) (threshold_value : ℚ) : List ℤ :=
  let bin : ℕ → ℕ → Bool := fun i j => decide (threshold_value < img.entry i j)
  let row_sum : List ℕ :=
    (List.range img.cols).map (fun j => (List.range img.rows).countP (fun i => bin i j))
  let col_sum : List ℕ :=
    (List.range img.rows).map (fun i => (List.range img.cols).countP (fun j => bin i j))
  let lr := find_border row_sum
  let tb := find_border col_sum
  [lr.1, lr.2, tb.1, tb.2]

/-- Synthetic test image: zero everywhere except a solid rectangle of
value v spanning rows r0..r1 and columns c0..c1 inclusive. -/
def rectImage (rows cols r0 r1 c0 c1 : ℕ) (v : ℚ) : Mat :=
  ⟨rows, cols, fun i j =>
    if r0 ≤ i ∧ i ≤ r1 ∧ c0 ≤ j ∧ j ≤ c1 then v else 0⟩

/-- The Python round function applied to the exact value t / 2: round
half to even.  All floats fed to round by precondition_right at slider
percentage 0.5 are exact halves, so this models them without loss. -/
def pyRoundHalves (t : ℤ) : ℤ :=
  if t % 2 = 0 then t / 2
  else if ((t - 1) / 2) % 2 = 0 then (t - 1) / 2 else (t - 1) / 2 + 1

/-- Center coordinate computed by precondition_right (main.py line 413)
along one axis at slider percentage 0.5: round(dim * 0.5 + d) with the
float product dim * 0.5 exact. -/
def rightCenterAt50 (dim : ℕ) (d : ℤ) : ℤ :=
  pyRoundHalves ((dim : ℤ) + 2 * d)

/-- Display offset returned by precondition_right (main.py lines
413-419) along one axis at slider percentage 0.5: the center minus
round(dim / 2). -/
def displayOffsetAt50 (dim : ℕ) (d : ℤ) : ℤ :=
  rightCenterAt50 dim d - pyRoundHalves (dim : ℤ)

/-- The Python round function on an exact rational value: round half to
even. -/
def pyRoundQ (q : ℚ) : ℤ :=
  if q - (⌊q⌋ : ℚ) < 1 / 2 then ⌊q⌋
  else if 1 / 2 < q - (⌊q⌋ : ℚ) then ⌊q⌋ + 1
  else if ⌊q⌋ % 2 = 0 then ⌊q⌋ else ⌊q⌋ + 1

/-- A 3-channel image, channel index last as produced by np.stack with
axis -1 in imshowpair falsecolor mode. -/
structure Mat3 where
  rows : ℕ
  cols : ℕ
  entry : ℕ → ℕ → ℕ → ℚ

/-- Luma conversion of a 3-channel image as performed by skimage
rgb2gray, with the float weights 0.2125, 0.7154, 0.0721 modelled as exact
decimals. -/
def rgb2grayM (img : Mat3) : Mat :=
  ⟨img.rows, img.cols, fun i j =>
    (2125 / 10000 : ℚ) * img.entry i j 0 +
    (7154 / 10000 : ℚ) * img.entry i j 1 +
    (721 / 10000 : ℚ) * img.entry i j 2⟩

/-- Normalized position of a Python slice bound on an axis of size n:
negative bounds count from the end, then the result is clamped to
0 .. n. -/
def sliceIdx (n : ℕ) (a : ℤ) : ℕ :=
  if a < 0 then (max (a + n) 0).toNat else min a.toNat n

/-- Number of elements selected by the Python slice a : b on an axis of
size n. -/
def sliceLen (n : ℕ) (a b : ℤ) : ℕ :=
  sliceIdx n b - sliceIdx n a

/-- The numpy slice m[r0:r1, c0:c1]. -/
def cropM (m : Mat) (r0 r1 c0 c1 : ℤ) : Mat :=
  ⟨sliceLen m.rows r0 r1, sliceLen m.cols c0 c1,
   fun i j => m.entry (sliceIdx m.rows r0 + i) (sliceIdx m.cols c0 + j)⟩

/-- Matrix transposition, numpy .T. -/
def transposeM (m : Mat) : Mat :=
  ⟨m.cols, m.rows, fun i j => m.entry j i⟩

/-- Elementwise sum of two same-shaped arrays, numpy +. -/
def matAdd (a b : Mat) : Mat :=
  ⟨a.rows, a.cols, fun i j => a.entry i j + b.entry i j⟩

/-- The numpy statement t[t > l] = r[t > l]: every cell of t strictly
greater than the corresponding cell of l is replaced by the
corresponding cell of r; both boolean masks are evaluated against the
original t before any write. -/
def maskReplaceGt (t l r : Mat) : Mat :=
  ⟨t.rows, t.cols, fun i j =>
    if l.entry i j < t.entry i j then r.entry i j else t.entry i j⟩

/-- Per-field body of stitch, main.py lines 562-571: sum the two
preconditioned tiles, apply the overlap tie-break, crop to the boundary
rectangle, transpose when the transpose checkbox is set.  The boundary
list is read as [left, right, top, bottom] exactly as produced by
get_boundary. -/
def stitchField (left_out right_out : Mat) (boundary : List ℤ)
    (transpose_flag : Bool) : Mat :=
  let temp_out := matAdd left_out right_out
  let temp_out2 := maskReplaceGt temp_out left_out right_out
  let final_out := cropM temp_out2
    (boundary.getD 2 0) (boundary.getD 3 0) (boundary.getD 0 0) (boundary.getD 1 0)
  if transpose_flag then transposeM final_out else final_out

/-- The boundary computed once by stitch, main.py line 553: get_boundary
of the comparison composite with threshold 0, the composite being a
3-channel falsecolor image converted to gray by rgb2gray inside
get_boundary. -/
def stitchBoundary (comparison : Mat3) : List ℤ :=
  get_boundary (rgb2grayM comparison) 0

/-- One field of the stitch loop with the boundary taken from the
comparison composite, main.py lines 553 and 562-571. -/
def stitchOne (left_out right_out : Mat) (comparison : Mat3)
    (transpose_flag : Bool) : Mat :=
  stitchField left_out right_out (stitchBoundary comparison) transpose_flag

/-- Modelled from the spec: the 5 percent margin expansion that section
4.3 claims is applied to the finalize boundary per axis, clipped back to
the composite bounds.  The margin of an axis is round of 5 percent of
that axis extent of the boundary.  No such computation exists in the
source; this definition only serves to compare the claim against the
code. -/
def specMarginExpand (b : List ℤ) (rows cols : ℕ) : List ℤ :=
  let l := b.getD 0 0
  let r := b.getD 1 0
  let t := b.getD 2 0
  let bo := b.getD 3 0
  let mx := pyRoundQ (((r - l : ℤ) : ℚ) * (5 / 100))
  let my := pyRoundQ (((bo - t : ℤ) : ℚ) * (5 / 100))
  [max (l - mx) 0, min (r + mx) (cols : ℤ), max (t - my) 0, min (bo + my) (rows : ℤ)]

/-- Shallow embedding of get_common_prefix from utils/string.py: the
longest common leading run of equal characters of the two names. -/
def commonPrefixOf : List Char → List Char → List Char
  | [], _ => []
  | _, [] => []
  | x :: xs, y :: ys => if x = y then x :: commonPrefixOf xs ys else []

/-- Scanning core of the Python call s.replace(pat, ""): scan left to
right, deleting each non-overlapping occurrence of pat.  The extra fuel
argument makes the recursion structural; the wrapper passes the string
length as fuel, which the scan never exhausts, since every step consumes
at least one character of the remaining string. -/
def removeAllAux (pat : List Char) : ℕ → List Char → List Char
  | 0, s => s
  | _ + 1, [] => []
  | fuel + 1, c :: rest =>
    if pat ≠ [] ∧ pat.isPrefixOf (c :: rest) then
      removeAllAux pat fuel (List.drop pat.length (c :: rest))
    else
      c :: removeAllAux pat fuel rest

/-- The Python call s.replace(pat, ""): with an empty pattern Python
returns s unchanged, otherwise every non-overlapping occurrence of pat
is deleted left to right. -/
def removeAll (s pat : List Char) : List Char :=
  if pat = [] then s else removeAllAux pat s.length s

/-- Shallow embedding of get_task_name from main.py lines 601-610:
returns none when the two names are identical, otherwise the common
prefix followed by both names with every occurrence of the common prefix
deleted by str.replace, joined by an underscore. -/
def getTaskName (left_name right_name : List Char) : Option (List Char) :=
  if left_name = right_name then none
  else
    let common := commonPrefixOf left_name right_name
    some (common ++ removeAll left_name common ++ ['_'] ++ removeAll right_name common)

/-- Concrete 4 by 4 zero canvas used by witnesses. -/
def bigW1 : Mat := ⟨4, 4, fun _ _ => 0⟩

/-- Concrete 2 by 2 all-ones tile used by witnesses. -/
def smallW1 : Mat := ⟨2, 2, fun _ _ => 1⟩

/-- Concrete 3 by 3 zero canvas used by counterexamples. -/
def big3 : Mat := ⟨3, 3, fun _ _ => 0⟩

/-- Concrete 1 by 1 all-ones tile used by counterexamples. -/
def small1 : Mat := ⟨1, 1, fun _ _ => 1⟩

/-- Concrete 16 by 16 falsecolor composite whose first channel holds a
solid square on rows and columns 2..12, used to compare the stitch
boundary against the margin expansion described by the spec. -/
def compC9 : Mat3 :=
  ⟨16, 16, fun i j c =>
    if c = 0 ∧ 2 ≤ i ∧ i ≤ 12 ∧ 2 ≤ j ∧ j ≤ 12 then 1 else 0⟩

/-- Concrete 4 by 4 all-ones matrix used by witnesses. -/
def onesW4 : Mat := ⟨4, 4, fun _ _ => 1⟩

theorem intRange_length (a b : ℤ) : (intRange a b).length = (b - a).toNat := by
  simp [intRange]

theorem intRange_eq_nil {a b : ℤ} (h : b ≤ a) : intRange a b = [] := by
  simp [intRange]
  omega

theorem mem_intRange {a b x : ℤ} : x ∈ intRange a b ↔ a ≤ x ∧ x < b := by
  simp only [intRange, List.mem_map, List.mem_range]
  constructor
  · rintro ⟨k, hk, rfl⟩
    omega
  · rintro ⟨h1, h2⟩
    exact ⟨(x - a).toNat, by omega, by omega⟩

theorem filter_range_eq_single (L : ℕ) (p : ℕ → Bool) (k0 : ℕ)
    (hp : ∀ k, p k = true ↔ k = k0) :
    (List.range L).filter p = if k0 < L then [k0] else [] := by
  induction L with
  | zero => simp
  | succ n ih =>
    rw [List.range_succ, List.filter_append]
    rw [ih]
    by_cases hn : p n = true
    · have : n = k0 := (hp n).mp hn
      subst this
      simp [hn]
    · have : n ≠ k0 := fun h => hn ((hp n).mpr h)
      simp only [List.filter_cons, hn]
      by_cases hk : k0 < n
      · simp only [if_pos hk, if_pos (by omega : k0 < n + 1)]
        simp
      · simp only [if_neg hk, if_neg (by omega : ¬ k0 < n + 1)]
        simp

theorem filter_range_eq_nil (L : ℕ) (p : ℕ → Bool)
    (hp : ∀ k, k < L → p k = false) :
    (List.range L).filter p = [] := by
  rw [List.filter_eq_nil_iff]
  intro k hk
  simp only [List.mem_range] at hk
  simp [hp k hk]

theorem lastSrc_intRange (dim : ℕ) (a b p : ℤ) (i : ℕ) (ha : 0 ≤ a) :
    lastSrc dim ((intRange a b).zip (intRange p (p + (b - a)))) i =
      if a ≤ (i : ℤ) ∧ (i : ℤ) < b then some (p + ((i : ℤ) - a)) else none := by
  unfold lastSrc intRange
  have hn : (p + (b - a)) - p = b - a := by ring
  rw [hn, List.zip_map', List.filter_map]
  have hpred : ∀ k : ℕ,
      ((fun ds : ℤ × ℤ => decide (effIdx dim ds.1 = i)) ∘
        fun k : ℕ => (a + (k : ℤ), p + (k : ℤ))) k = true ↔ (a + (k : ℤ) = i) := by
    intro k
    have h0 : ¬ (a + (k : ℤ) < 0) := by omega
    simp only [Function.comp_apply, decide_eq_true_eq, effIdx, if_neg h0]
    omega
  by_cases hcase : a ≤ (i : ℤ) ∧ (i : ℤ) < b
  · have heq : ∀ k : ℕ,
        ((fun ds : ℤ × ℤ => decide (effIdx dim ds.1 = i)) ∘
          fun k : ℕ => (a + (k : ℤ), p + (k : ℤ))) k = true ↔ k = ((i : ℤ) - a).toNat := by
      intro k
      rw [hpred k]
      omega
    rw [filter_range_eq_single _ _ _ heq,
      if_pos (by omega : ((i : ℤ) - a).toNat < (b - a).toNat), if_pos hcase]
    simp only [List.map_cons, List.map_nil, List.getLast?_singleton, Option.map_some]
    rw [Int.toNat_of_nonneg (by omega : (0 : ℤ) ≤ (i : ℤ) - a)]
    rfl
  · have heq : ∀ k : ℕ, k < (b - a).toNat →
        ((fun ds : ℤ × ℤ => decide (effIdx dim ds.1 = i)) ∘
          fun k : ℕ => (a + (k : ℤ), p + (k : ℤ))) k = false := by
      intro k hk
      rw [Bool.eq_false_iff]
      intro hcon
      rw [hpred k] at hcon
      omega
    rw [filter_range_eq_nil _ _ heq, if_neg hcase]
    simp

theorem all_validIdx_intRange {dim : ℕ} {a b : ℤ}
    (ha : -(dim : ℤ) ≤ a) (hb : b ≤ (dim : ℤ)) :
    (intRange a b).all (validIdx dim) = true := by
  rw [List.all_eq_true]
  intro x hx
  rw [mem_intRange] at hx
  simp only [validIdx, Bool.and_eq_true, decide_eq_true_eq]
  omega

theorem ixAdd_intRange (big small : Mat) (a b c d p q : ℤ)
    (ha : 0 ≤ a) (hb : b ≤ (big.rows : ℤ)) (hc : 0 ≤ c) (hd : d ≤ (big.cols : ℤ))
    (hp : 0 ≤ p) (hps : p + (b - a) ≤ (small.rows : ℤ))
    (hq : 0 ≤ q) (hqs : q + (d - c) ≤ (small.cols : ℤ)) :
    ixAdd big small (intRange a b) (intRange c d)
        (intRange p (p + (b - a))) (intRange q (q + (d - c))) =
      .ok { big with entry := fun i j =>
        (if a ≤ (i : ℤ) ∧ (i : ℤ) < b ∧ c ≤ (j : ℤ) ∧ (j : ℤ) < d then
          big.entry i j +
            small.entry (p + ((i : ℤ) - a)).toNat (q + ((j : ℤ) - c)).toNat
        else big.entry i j) } := by
  unfold ixAdd
  rw [if_pos (by
    constructor
    · rw [intRange_length, intRange_length]
      omega
    · rw [intRange_length, intRange_length]
      omega)]
  rw [if_pos (by
    refine ⟨?_, ?_, ?_, ?_⟩
    · exact all_validIdx_intRange (by omega) hb
    · exact all_validIdx_intRange (by omega) hd
    · exact all_validIdx_intRange (by omega) hps
    · exact all_validIdx_intRange (by omega) hqs)]
  congr 1
  unfold ixAddOk
  congr 1
  funext i j
  rw [lastSrc_intRange big.rows a b p i ha, lastSrc_intRange big.cols c d q j hc]
  by_cases hP : a ≤ (i : ℤ) ∧ (i : ℤ) < b
  · by_cases hQ : c ≤ (j : ℤ) ∧ (j : ℤ) < d
    · rw [if_pos hP, if_pos hQ]
      have e1 : effIdx small.rows (p + ((i : ℤ) - a)) = (p + ((i : ℤ) - a)).toNat := by
        unfold effIdx
        rw [if_neg (by omega)]
      have e2 : effIdx small.cols (q + ((j : ℤ) - c)) = (q + ((j : ℤ) - c)).toNat := by
        unfold effIdx
        rw [if_neg (by omega)]
      show big.entry i j + small.entry (effIdx small.rows (p + ((i : ℤ) - a)))
        (effIdx small.cols (q + ((j : ℤ) - c))) = _
      rw [e1, e2, if_pos ⟨hP.1, hP.2, hQ.1, hQ.2⟩]
    · rw [if_pos hP, if_neg hQ]
      show big.entry i j = _
      rw [if_neg (fun hcon => hQ ⟨hcon.2.2.1, hcon.2.2.2⟩)]
  · by_cases hQ : c ≤ (j : ℤ) ∧ (j : ℤ) < d
    · rw [if_neg hP, if_pos hQ]
      show big.entry i j = _
      rw [if_neg (fun hcon => hP ⟨hcon.1, hcon.2.1⟩)]
    · rw [if_neg hP, if_neg hQ]
      show big.entry i j = _
      rw [if_neg (fun hcon => hP ⟨hcon.1, hcon.2.1⟩)]

theorem ixAdd_empty_xs (big small : Mat) (ys ysrc : List ℤ)
    (hlen : ys.length = ysrc.length)
    (hys : ys.all (validIdx big.rows) = true)
    (hysrc : ysrc.all (validIdx small.rows) = true) :
    ixAdd big small ys [] ysrc [] = .ok big := by
  unfold ixAdd
  rw [if_pos ⟨hlen, rfl⟩, if_pos ⟨hys, rfl, hysrc, rfl⟩]
  congr 1
  unfold ixAddOk
  cases big with
  | mk r c e =>
    congr 1
    funext i j
    cases h1 : lastSrc r (ys.zip ysrc) i <;> rfl

theorem ixAdd_empty_ys (big small : Mat) (xs xsrc : List ℤ)
    (hlen : xs.length = xsrc.length)
    (hxs : xs.all (validIdx big.cols) = true)
    (hxsrc : xsrc.all (validIdx small.cols) = true) :
    ixAdd big small [] xs [] xsrc = .ok big := by
  unfold ixAdd
  rw [if_pos ⟨rfl, hlen⟩, if_pos ⟨rfl, hxs, rfl, hxsrc⟩]
  congr 1

theorem xStepwiseLeft_sum (cols_big cols_small : ℕ) (start_x : ℤ)
    (hs : start_x < 0) :
    (xStepwiseLeft cols_big cols_small start_x (start_x + (cols_small : ℤ) - 1)).d0.length +
      (xStepwiseLeft cols_big cols_small start_x (start_x + (cols_small : ℤ) - 1)).d2.length =
      cols_small := by
  unfold xStepwiseLeft
  simp only [intRange_length]
  omega

theorem xStepwiseRight_sum (cols_big cols_small : ℕ) (start_x : ℤ)
    (hs : (cols_big : ℤ) - cols_small ≤ start_x) :
    (xStepwiseRight cols_big cols_small start_x).d0.length +
      (xStepwiseRight cols_big cols_small start_x).d2.length = cols_small := by
  unfold xStepwiseRight
  simp only [intRange_length]
  omega

theorem yStepwiseTop_sum (rows_big rows_small : ℕ) (start_y : ℤ)
    (hs : start_y < 0) :
    (yStepwiseTop rows_big rows_small start_y (start_y + (rows_small : ℤ) - 1)).d0.length +
      (yStepwiseTop rows_big rows_small start_y (start_y + (rows_small : ℤ) - 1)).d2.length =
      rows_small := by
  unfold yStepwiseTop
  simp only [intRange_length]
  omega

theorem yStepwiseBottom_sum (rows_big rows_small : ℕ) (start_y : ℤ)
    (hs : (rows_big : ℤ) - rows_small ≤ start_y) :
    (yStepwiseBottom rows_big rows_small start_y).d0.length +
      (yStepwiseBottom rows_big rows_small start_y).d2.length = rows_small := by
  unfold yStepwiseBottom
  simp only [intRange_length]
  omega

/-- C1: for every canvas and tile satisfying the size precondition and
every center whose naive destination rectangle lies entirely inside the
canvas, the embedder with commit true returns the canvas with the tile
added elementwise into exactly that rectangle and a footprint equal to
the rectangle column and row index ranges, of lengths cols_small and
rows_small.  This covers the centers where the overflow test fires
although the rectangle is in bounds (even tile extents flush with the
right or bottom canvas edge), where the write is split into one full
sub-rectangle and empty remainders. -/
theorem embed_in_bounds_exact (big small : Mat) (ax ay : ℤ)
    (hrows : small.rows ≤ big.rows) (hcols : small.cols ≤ big.cols)
    (hx0 : 0 ≤ ax - ((small.cols / 2 : ℕ) : ℤ))
    (hx1 : ax - ((small.cols / 2 : ℕ) : ℤ) + (small.cols : ℤ) ≤ (big.cols : ℤ))
    (hy0 : 0 ≤ ay - ((small.rows / 2 : ℕ) : ℤ))
    (hy1 : ay - ((small.rows / 2 : ℕ) : ℤ) + (small.rows : ℤ) ≤ (big.rows : ℤ)) :
    add_small_to_big_matrix_2d_periodically big small ax ay true =
      .ok (⟨big.rows, big.cols, fun i j =>
          (if ay - ((small.rows / 2 : ℕ) : ℤ) ≤ (i : ℤ) ∧
              (i : ℤ) < ay - ((small.rows / 2 : ℕ) : ℤ) + (small.rows : ℤ) ∧
              ax - ((small.cols / 2 : ℕ) : ℤ) ≤ (j : ℤ) ∧
              (j : ℤ) < ax - ((small.cols / 2 : ℕ) : ℤ) + (small.cols : ℤ) then
            big.entry i j +
              small.entry ((i : ℤ) - (ay - ((small.rows / 2 : ℕ) : ℤ))).toNat
                ((j : ℤ) - (ax - ((small.cols / 2 : ℕ) : ℤ))).toNat
          else big.entry i j)⟩,
        intRange (ax - ((small.cols / 2 : ℕ) : ℤ))
          (ax - ((small.cols / 2 : ℕ) : ℤ) + (small.cols : ℤ)),
        intRange (ay - ((small.rows / 2 : ℕ) : ℤ))
          (ay - ((small.rows / 2 : ℕ) : ℤ) + (small.rows : ℤ))) ∧
      (intRange (ax - ((small.cols / 2 : ℕ) : ℤ))
        (ax - ((small.cols / 2 : ℕ) : ℤ) + (small.cols : ℤ))).length = small.cols ∧
      (intRange (ay - ((small.rows / 2 : ℕ) : ℤ))
        (ay - ((small.rows / 2 : ℕ) : ℤ) + (small.rows : ℤ))).length = small.rows := by
  refine ⟨?_, by rw [intRange_length]; omega, by rw [intRange_length]; omega⟩
  have hleft : overflowLeftB small.cols ax = false := by
    simp only [overflowLeftB, decide_eq_false_iff_not]
    omega
  have htop : overflowTopB small.rows ay = false := by
    simp only [overflowTopB, decide_eq_false_iff_not]
    omega
  simp only [add_small_to_big_matrix_2d_periodically]
  rw [if_neg (by omega : ¬ (big.rows < small.rows ∨ big.cols < small.cols))]
  cases hr : overflowRightB big.cols small.cols ax with
  | false =>
    cases hbm : overflowBottomB big.rows small.rows ay with
    | false =>
      rw [if_pos ⟨by simp [hleft], by simp [htop]⟩, if_pos trivial]
      have W := ixAdd_intRange big small
        (ay - ((small.rows / 2 : ℕ) : ℤ))
        (ay - ((small.rows / 2 : ℕ) : ℤ) + (small.rows : ℤ) - 1 + 1)
        (ax - ((small.cols / 2 : ℕ) : ℤ))
        (ax - ((small.cols / 2 : ℕ) : ℤ) + (small.cols : ℤ) - 1 + 1)
        0 0 (by omega) (by omega) (by omega) (by omega)
        (by omega) (by omega) (by omega) (by omega)
      rw [show (0 : ℤ) + ((ay - ((small.rows / 2 : ℕ) : ℤ) + (small.rows : ℤ) - 1 + 1) -
          (ay - ((small.rows / 2 : ℕ) : ℤ))) = (small.rows : ℤ) from by ring] at W
      rw [show (0 : ℤ) + ((ax - ((small.cols / 2 : ℕ) : ℤ) + (small.cols : ℤ) - 1 + 1) -
          (ax - ((small.cols / 2 : ℕ) : ℤ))) = (small.cols : ℤ) from by ring] at W
      rw [W]
      dsimp only
      simp only [Except.ok.injEq, Prod.mk.injEq]
      refine ⟨?_, ?_, ?_⟩
      · refine congrArg (Mat.mk big.rows big.cols) ?_
        funext i j
        by_cases hij : ay - ((small.rows / 2 : ℕ) : ℤ) ≤ (i : ℤ) ∧
            (i : ℤ) < ay - ((small.rows / 2 : ℕ) : ℤ) + (small.rows : ℤ) ∧
            ax - ((small.cols / 2 : ℕ) : ℤ) ≤ (j : ℤ) ∧
            (j : ℤ) < ax - ((small.cols / 2 : ℕ) : ℤ) + (small.cols : ℤ)
        · rw [if_pos ⟨hij.1, by omega, hij.2.2.1, by omega⟩, if_pos hij]
          simp only [zero_add]
        · rw [if_neg (fun hcon => hij ⟨hcon.1, by omega, hcon.2.2.1, by omega⟩), if_neg hij]
      · exact congrArg (intRange (ax - ((small.cols / 2 : ℕ) : ℤ))) (by ring)
      · exact congrArg (intRange (ay - ((small.rows / 2 : ℕ) : ℤ))) (by ring)
    | true =>
      have hbP : (big.rows : ℤ) - 1 < ay + ((small.rows / 2 : ℕ) : ℤ) := by
        have h1 := hbm
        simp only [overflowBottomB, decide_eq_true_eq] at h1
        exact h1
      have hkey : (big.rows : ℤ) = (ay - ((small.rows / 2 : ℕ) : ℤ)) + (small.rows : ℤ) := by omega
      simp only [hleft, htop, Bool.false_or, Bool.or_false, Bool.true_eq_false,
        Bool.false_eq_true, eq_self_iff_true, if_true, if_false, and_true, true_and,
        and_false, false_and, yStepwiseBottom]
      rw [show (((intRange (ay - ((small.rows / 2 : ℕ) : ℤ)) (big.rows : ℤ)).length : ℤ)) = (big.rows : ℤ) - (ay - ((small.rows / 2 : ℕ) : ℤ)) from by
        rw [intRange_length]; omega]
      rw [show (small.rows : ℤ) - ((big.rows : ℤ) - (ay - ((small.rows / 2 : ℕ) : ℤ))) = 0 from by omega]
      rw [show (0 : ℤ) + 0 - 1 + 1 = 0 from by norm_num]
      rw [intRange_eq_nil (le_refl (0 : ℤ))]
      have W := ixAdd_intRange big small
        (ay - ((small.rows / 2 : ℕ) : ℤ)) (big.rows : ℤ) (ax - ((small.cols / 2 : ℕ) : ℤ)) ((ax - ((small.cols / 2 : ℕ) : ℤ)) + (small.cols : ℤ) - 1 + 1) 0 0
        (by omega) (by omega) (by omega) (by omega)
        (by omega) (by omega) (by omega) (by omega)
      rw [show (0 : ℤ) + ((big.rows : ℤ) - (ay - ((small.rows / 2 : ℕ) : ℤ))) = (small.rows : ℤ) from by omega] at W
      rw [show (0 : ℤ) + (((ax - ((small.cols / 2 : ℕ) : ℤ)) + (small.cols : ℤ) - 1 + 1) - (ax - ((small.cols / 2 : ℕ) : ℤ))) = (small.cols : ℤ) from by ring] at W
      simp only [zero_add] at W
      rw [W]
      dsimp only
      rw [ixAdd_empty_ys _ small (intRange (ax - ((small.cols / 2 : ℕ) : ℤ)) ((ax - ((small.cols / 2 : ℕ) : ℤ)) + (small.cols : ℤ) - 1 + 1)) (intRange 0 (small.cols : ℤ))
        (by rw [intRange_length, intRange_length]; omega)
        (by exact @all_validIdx_intRange big.cols (ax - ((small.cols / 2 : ℕ) : ℤ)) ((ax - ((small.cols / 2 : ℕ) : ℤ)) + (small.cols : ℤ) - 1 + 1) (by omega) (by omega))
        (by exact @all_validIdx_intRange small.cols 0 (small.cols : ℤ) (by omega) (by omega))]
      dsimp only
      simp only [List.append_nil, Except.ok.injEq, Prod.mk.injEq]
      refine ⟨?_, ?_, ?_⟩
      · refine congrArg (Mat.mk big.rows big.cols) ?_
        funext i j
        by_cases hij : (ay - ((small.rows / 2 : ℕ) : ℤ)) ≤ (i : ℤ) ∧ (i : ℤ) < (ay - ((small.rows / 2 : ℕ) : ℤ)) + (small.rows : ℤ) ∧
            (ax - ((small.cols / 2 : ℕ) : ℤ)) ≤ (j : ℤ) ∧ (j : ℤ) < (ax - ((small.cols / 2 : ℕ) : ℤ)) + (small.cols : ℤ)
        · rw [if_pos ⟨hij.1, by omega, hij.2.2.1, by omega⟩, if_pos hij]
        · rw [if_neg (fun hcon => hij ⟨hcon.1, by omega, hcon.2.2.1, by omega⟩), if_neg hij]
      · exact congrArg (intRange (ax - ((small.cols / 2 : ℕ) : ℤ))) (by ring)
      · exact congrArg (intRange (ay - ((small.rows / 2 : ℕ) : ℤ))) (by omega)
  | true =>
    cases hbm : overflowBottomB big.rows small.rows ay with
    | false =>
      have hrP : (big.cols : ℤ) - 1 < ax + ((small.cols / 2 : ℕ) : ℤ) := by
        have h1 := hr
        simp only [overflowRightB, decide_eq_true_eq] at h1
        exact h1
      have hkey : (big.cols : ℤ) = (ax - ((small.cols / 2 : ℕ) : ℤ)) + (small.cols : ℤ) := by omega
      simp only [hleft, htop, Bool.false_or, Bool.or_false, Bool.true_eq_false,
        Bool.false_eq_true, eq_self_iff_true, if_true, if_false, and_true, true_and,
        and_false, false_and, xStepwiseRight]
      rw [show (((intRange (ax - ((small.cols / 2 : ℕ) : ℤ)) (big.cols : ℤ)).length : ℤ)) = (big.cols : ℤ) - (ax - ((small.cols / 2 : ℕ) : ℤ)) from by
        rw [intRange_length]; omega]
      rw [show (0 : ℤ) + ((small.cols : ℤ) - ((big.cols : ℤ) - (ax - ((small.cols / 2 : ℕ) : ℤ)))) = 0 from by omega]
      rw [intRange_eq_nil (le_refl (0 : ℤ))]
      rw [show intRange ((big.cols : ℤ) - (ax - ((small.cols / 2 : ℕ) : ℤ))) (small.cols : ℤ) = [] from intRange_eq_nil (by omega)]
      have W := ixAdd_intRange big small
        (ay - ((small.rows / 2 : ℕ) : ℤ)) ((ay - ((small.rows / 2 : ℕ) : ℤ)) + (small.rows : ℤ) - 1 + 1) (ax - ((small.cols / 2 : ℕ) : ℤ)) (big.cols : ℤ) 0 0
        (by omega) (by omega) (by omega) (by omega)
        (by omega) (by omega) (by omega) (by omega)
      rw [show (0 : ℤ) + (((ay - ((small.rows / 2 : ℕ) : ℤ)) + (small.rows : ℤ) - 1 + 1) - (ay - ((small.rows / 2 : ℕ) : ℤ))) = (small.rows : ℤ) from by ring] at W
      rw [show (0 : ℤ) + ((big.cols : ℤ) - (ax - ((small.cols / 2 : ℕ) : ℤ))) = (big.cols : ℤ) - (ax - ((small.cols / 2 : ℕ) : ℤ)) from by ring] at W
      simp only [zero_add] at W
      rw [W]
      dsimp only
      rw [ixAdd_empty_xs _ small (intRange (ay - ((small.rows / 2 : ℕ) : ℤ)) ((ay - ((small.rows / 2 : ℕ) : ℤ)) + (small.rows : ℤ) - 1 + 1)) (intRange 0 (small.rows : ℤ))
        (by rw [intRange_length, intRange_length]; omega)
        (by exact @all_validIdx_intRange big.rows (ay - ((small.rows / 2 : ℕ) : ℤ)) ((ay - ((small.rows / 2 : ℕ) : ℤ)) + (small.rows : ℤ) - 1 + 1) (by omega) (by omega))
        (by exact @all_validIdx_intRange small.rows 0 (small.rows : ℤ) (by omega) (by omega))]
      dsimp only
      simp only [List.append_nil, Except.ok.injEq, Prod.mk.injEq]
      refine ⟨?_, ?_, ?_⟩
      · refine congrArg (Mat.mk big.rows big.cols) ?_
        funext i j
        by_cases hij : (ay - ((small.rows / 2 : ℕ) : ℤ)) ≤ (i : ℤ) ∧ (i : ℤ) < (ay - ((small.rows / 2 : ℕ) : ℤ)) + (small.rows : ℤ) ∧
            (ax - ((small.cols / 2 : ℕ) : ℤ)) ≤ (j : ℤ) ∧ (j : ℤ) < (ax - ((small.cols / 2 : ℕ) : ℤ)) + (small.cols : ℤ)
        · rw [if_pos ⟨hij.1, by omega, hij.2.2.1, by omega⟩, if_pos hij]
        · rw [if_neg (fun hcon => hij ⟨hcon.1, by omega, hcon.2.2.1, by omega⟩), if_neg hij]
      · exact congrArg (intRange (ax - ((small.cols / 2 : ℕ) : ℤ))) (by omega)
      · exact congrArg (intRange (ay - ((small.rows / 2 : ℕ) : ℤ))) (by ring)
    | true =>
      have hrP : (big.cols : ℤ) - 1 < ax + ((small.cols / 2 : ℕ) : ℤ) := by
        have h1 := hr
        simp only [overflowRightB, decide_eq_true_eq] at h1
        exact h1
      have hbP : (big.rows : ℤ) - 1 < ay + ((small.rows / 2 : ℕ) : ℤ) := by
        have h1 := hbm
        simp only [overflowBottomB, decide_eq_true_eq] at h1
        exact h1
      have hkeyx : (big.cols : ℤ) = (ax - ((small.cols / 2 : ℕ) : ℤ)) + (small.cols : ℤ) := by omega
      have hkeyy : (big.rows : ℤ) = (ay - ((small.rows / 2 : ℕ) : ℤ)) + (small.rows : ℤ) := by omega
      simp only [hleft, htop, Bool.false_or, Bool.or_false, Bool.true_eq_false,
        Bool.false_eq_true, eq_self_iff_true, if_true, if_false, and_true, true_and,
        and_false, false_and, xStepwiseRight, yStepwiseBottom]
      rw [show (((intRange (ax - ((small.cols / 2 : ℕ) : ℤ)) (big.cols : ℤ)).length : ℤ)) = (big.cols : ℤ) - (ax - ((small.cols / 2 : ℕ) : ℤ)) from by
        rw [intRange_length]; omega]
      rw [show (((intRange (ay - ((small.rows / 2 : ℕ) : ℤ)) (big.rows : ℤ)).length : ℤ)) = (big.rows : ℤ) - (ay - ((small.rows / 2 : ℕ) : ℤ)) from by
        rw [intRange_length]; omega]
      rw [show (0 : ℤ) + ((small.cols : ℤ) - ((big.cols : ℤ) - (ax - ((small.cols / 2 : ℕ) : ℤ)))) = 0 from by omega]
      rw [show (small.rows : ℤ) - ((big.rows : ℤ) - (ay - ((small.rows / 2 : ℕ) : ℤ))) = 0 from by omega]
      rw [show (0 : ℤ) + 0 - 1 + 1 = 0 from by norm_num]
      rw [intRange_eq_nil (le_refl (0 : ℤ))]
      rw [show intRange ((big.cols : ℤ) - (ax - ((small.cols / 2 : ℕ) : ℤ))) (small.cols : ℤ) = [] from intRange_eq_nil (by omega)]
      have W := ixAdd_intRange big small
        (ay - ((small.rows / 2 : ℕ) : ℤ)) (big.rows : ℤ) (ax - ((small.cols / 2 : ℕ) : ℤ)) (big.cols : ℤ) 0 0
        (by omega) (by omega) (by omega) (by omega)
        (by omega) (by omega) (by omega) (by omega)
      rw [show (0 : ℤ) + ((big.rows : ℤ) - (ay - ((small.rows / 2 : ℕ) : ℤ))) = (small.rows : ℤ) from by omega] at W
      simp only [zero_add] at W
      rw [W]
      dsimp only
      rw [ixAdd_empty_ys _ small (intRange (ax - ((small.cols / 2 : ℕ) : ℤ)) (big.cols : ℤ)) (intRange 0 ((big.cols : ℤ) - (ax - ((small.cols / 2 : ℕ) : ℤ))))
        (by rw [intRange_length, intRange_length]; omega)
        (by exact @all_validIdx_intRange big.cols (ax - ((small.cols / 2 : ℕ) : ℤ)) (big.cols : ℤ) (by omega) (by omega))
        (by exact @all_validIdx_intRange small.cols 0 ((big.cols : ℤ) - (ax - ((small.cols / 2 : ℕ) : ℤ))) (by omega) (by omega))]
      dsimp only
      rw [ixAdd_empty_xs _ small (intRange (ay - ((small.rows / 2 : ℕ) : ℤ)) (big.rows : ℤ)) (intRange 0 (small.rows : ℤ))
        (by rw [intRange_length, intRange_length]; omega)
        (by exact @all_validIdx_intRange big.rows (ay - ((small.rows / 2 : ℕ) : ℤ)) (big.rows : ℤ) (by omega) (by omega))
        (by exact @all_validIdx_intRange small.rows 0 (small.rows : ℤ) (by omega) (by omega))]
      dsimp only
      rw [ixAdd_empty_xs _ small ([] : List ℤ) ([] : List ℤ) rfl (by exact rfl) (by exact rfl)]
      dsimp only
      simp only [List.append_nil, Except.ok.injEq, Prod.mk.injEq]
      refine ⟨?_, ?_, ?_⟩
      · refine congrArg (Mat.mk big.rows big.cols) ?_
        funext i j
        by_cases hij : (ay - ((small.rows / 2 : ℕ) : ℤ)) ≤ (i : ℤ) ∧ (i : ℤ) < (ay - ((small.rows / 2 : ℕ) : ℤ)) + (small.rows : ℤ) ∧
            (ax - ((small.cols / 2 : ℕ) : ℤ)) ≤ (j : ℤ) ∧ (j : ℤ) < (ax - ((small.cols / 2 : ℕ) : ℤ)) + (small.cols : ℤ)
        · rw [if_pos ⟨hij.1, by omega, hij.2.2.1, by omega⟩, if_pos hij]
        · rw [if_neg (fun hcon => hij ⟨hcon.1, by omega, hcon.2.2.1, by omega⟩), if_neg hij]
      · exact congrArg (intRange (ax - ((small.cols / 2 : ℕ) : ℤ))) (by omega)
      · exact congrArg (intRange (ay - ((small.rows / 2 : ℕ) : ℤ))) (by omega)

theorem embed_in_bounds_exact_witness :
    add_small_to_big_matrix_2d_periodically bigW1 smallW1 3 1 true =
      .ok (⟨bigW1.rows, bigW1.cols, fun i j =>
          (if 1 - ((smallW1.rows / 2 : ℕ) : ℤ) ≤ (i : ℤ) ∧
              (i : ℤ) < 1 - ((smallW1.rows / 2 : ℕ) : ℤ) + (smallW1.rows : ℤ) ∧
              3 - ((smallW1.cols / 2 : ℕ) : ℤ) ≤ (j : ℤ) ∧
              (j : ℤ) < 3 - ((smallW1.cols / 2 : ℕ) : ℤ) + (smallW1.cols : ℤ) then
            bigW1.entry i j +
              smallW1.entry ((i : ℤ) - (1 - ((smallW1.rows / 2 : ℕ) : ℤ))).toNat
                ((j : ℤ) - (3 - ((smallW1.cols / 2 : ℕ) : ℤ))).toNat
          else bigW1.entry i j)⟩,
        intRange (3 - ((smallW1.cols / 2 : ℕ) : ℤ))
          (3 - ((smallW1.cols / 2 : ℕ) : ℤ) + (smallW1.cols : ℤ)),
        intRange (1 - ((smallW1.rows / 2 : ℕ) : ℤ))
          (1 - ((smallW1.rows / 2 : ℕ) : ℤ) + (smallW1.rows : ℤ))) ∧
      (intRange (3 - ((smallW1.cols / 2 : ℕ) : ℤ))
        (3 - ((smallW1.cols / 2 : ℕ) : ℤ) + (smallW1.cols : ℤ))).length = smallW1.cols ∧
      (intRange (1 - ((smallW1.rows / 2 : ℕ) : ℤ))
        (1 - ((smallW1.rows / 2 : ℕ) : ℤ) + (smallW1.rows : ℤ))).length = smallW1.rows :=
  embed_in_bounds_exact bigW1 smallW1 3 1 (by decide) (by decide) (by decide)
    (by decide) (by decide) (by decide)

/-- C5: under the size precondition the two opposite overflow flags of
one axis never hold together, and on an overflowing axis the two
stepwise destination ranges have lengths summing to the tile extent on
that axis, so the later stepwise computation never overwrites a
simultaneously needed earlier one. -/
theorem overflow_flags_exclusive (rows_big rows_small cols_big cols_small : ℕ)
    (add_x add_y : ℤ) (hr : rows_small ≤ rows_big) (hc : cols_small ≤ cols_big) :
    ¬(overflowLeftB cols_small add_x = true ∧
        overflowRightB cols_big cols_small add_x = true) ∧
    ¬(overflowTopB rows_small add_y = true ∧
        overflowBottomB rows_big rows_small add_y = true) ∧
    (overflowLeftB cols_small add_x = true →
      (xStepwiseLeft cols_big cols_small (add_x - ((cols_small / 2 : ℕ) : ℤ))
          (add_x - ((cols_small / 2 : ℕ) : ℤ) + (cols_small : ℤ) - 1)).d0.length +
        (xStepwiseLeft cols_big cols_small (add_x - ((cols_small / 2 : ℕ) : ℤ))
          (add_x - ((cols_small / 2 : ℕ) : ℤ) + (cols_small : ℤ) - 1)).d2.length =
        cols_small) ∧
    (overflowRightB cols_big cols_small add_x = true →
      (xStepwiseRight cols_big cols_small (add_x - ((cols_small / 2 : ℕ) : ℤ))).d0.length +
        (xStepwiseRight cols_big cols_small (add_x - ((cols_small / 2 : ℕ) : ℤ))).d2.length =
        cols_small) ∧
    (overflowTopB rows_small add_y = true →
      (yStepwiseTop rows_big rows_small (add_y - ((rows_small / 2 : ℕ) : ℤ))
          (add_y - ((rows_small / 2 : ℕ) : ℤ) + (rows_small : ℤ) - 1)).d0.length +
        (yStepwiseTop rows_big rows_small (add_y - ((rows_small / 2 : ℕ) : ℤ))
          (add_y - ((rows_small / 2 : ℕ) : ℤ) + (rows_small : ℤ) - 1)).d2.length =
        rows_small) ∧
    (overflowBottomB rows_big rows_small add_y = true →
      (yStepwiseBottom rows_big rows_small (add_y - ((rows_small / 2 : ℕ) : ℤ))).d0.length +
        (yStepwiseBottom rows_big rows_small (add_y - ((rows_small / 2 : ℕ) : ℤ))).d2.length =
        rows_small) := by
  simp only [overflowLeftB, overflowRightB, overflowTopB, overflowBottomB,
    decide_eq_true_eq]
  refine ⟨?_, ?_, ?_, ?_, ?_, ?_⟩
  · rintro ⟨h1, h2⟩
    omega
  · rintro ⟨h1, h2⟩
    omega
  · intro h1
    exact xStepwiseLeft_sum cols_big cols_small _ (by omega)
  · intro h1
    exact xStepwiseRight_sum cols_big cols_small _ (by omega)
  · intro h1
    exact yStepwiseTop_sum rows_big rows_small _ (by omega)
  · intro h1
    exact yStepwiseBottom_sum rows_big rows_small _ (by omega)

theorem overflow_flags_exclusive_witness :
    ¬(overflowLeftB 3 0 = true ∧ overflowRightB 9 3 0 = true) ∧
    ¬(overflowTopB 3 0 = true ∧ overflowBottomB 9 3 0 = true) ∧
    (overflowLeftB 3 0 = true →
      (xStepwiseLeft 9 3 ((0 : ℤ) - ((3 / 2 : ℕ) : ℤ))
          ((0 : ℤ) - ((3 / 2 : ℕ) : ℤ) + (3 : ℤ) - 1)).d0.length +
        (xStepwiseLeft 9 3 ((0 : ℤ) - ((3 / 2 : ℕ) : ℤ))
          ((0 : ℤ) - ((3 / 2 : ℕ) : ℤ) + (3 : ℤ) - 1)).d2.length = 3) ∧
    (overflowRightB 9 3 0 = true →
      (xStepwiseRight 9 3 ((0 : ℤ) - ((3 / 2 : ℕ) : ℤ))).d0.length +
        (xStepwiseRight 9 3 ((0 : ℤ) - ((3 / 2 : ℕ) : ℤ))).d2.length = 3) ∧
    (overflowTopB 3 0 = true →
      (yStepwiseTop 9 3 ((0 : ℤ) - ((3 / 2 : ℕ) : ℤ))
          ((0 : ℤ) - ((3 / 2 : ℕ) : ℤ) + (3 : ℤ) - 1)).d0.length +
        (yStepwiseTop 9 3 ((0 : ℤ) - ((3 / 2 : ℕ) : ℤ))
          ((0 : ℤ) - ((3 / 2 : ℕ) : ℤ) + (3 : ℤ) - 1)).d2.length = 3) ∧
    (overflowBottomB 9 3 0 = true →
      (yStepwiseBottom 9 3 ((0 : ℤ) - ((3 / 2 : ℕ) : ℤ))).d0.length +
        (yStepwiseBottom 9 3 ((0 : ℤ) - ((3 / 2 : ℕ) : ℤ))).d2.length = 3) :=
  overflow_flags_exclusive 9 3 9 3 0 0 (by decide) (by decide)

/-- C4: the embedder raises its ValueError (the SizeMismatch of the
spec) exactly when the tile exceeds the canvas in some axis, for every
center and for both commit modes, and a SizeMismatch failure happens
before any write, so the canvas carried out of the failure is the
untouched input canvas. -/
theorem embed_size_mismatch_iff (big small : Mat) (ax ay : ℤ) (flag : Bool) :
    (isSizeMismatch (add_small_to_big_matrix_2d_periodically big small ax ay flag) = true ↔
      (big.rows < small.rows ∨ big.cols < small.cols)) ∧
    (isSizeMismatch (add_small_to_big_matrix_2d_periodically big small ax ay flag) = true →
      errCanvas (add_small_to_big_matrix_2d_periodically big small ax ay flag) = some big) := by
  by_cases hsz : big.rows < small.rows ∨ big.cols < small.cols
  · have hred : add_small_to_big_matrix_2d_periodically big small ax ay flag =
        .error (.sizeMismatch, big) := by
      simp only [add_small_to_big_matrix_2d_periodically]
      rw [if_pos hsz]
    rw [hred]
    exact ⟨⟨fun _ => hsz, fun _ => rfl⟩, fun _ => rfl⟩
  · have hfalse :
        isSizeMismatch (add_small_to_big_matrix_2d_periodically big small ax ay flag) =
          false := by
      simp only [add_small_to_big_matrix_2d_periodically]
      rw [if_neg hsz]
      repeat' split
      all_goals rfl
    constructor
    · constructor
      · intro h
        rw [hfalse] at h
        cases h
      · intro h
        exact absurd h hsz
    · intro h
      rw [hfalse] at h
      cases h

theorem embed_size_mismatch_iff_witness :
    isSizeMismatch (add_small_to_big_matrix_2d_periodically smallW1 bigW1 0 0 true) = true ∧
    errCanvas (add_small_to_big_matrix_2d_periodically smallW1 bigW1 0 0 true) =
      some smallW1 := by
  have t := embed_size_mismatch_iff smallW1 bigW1 0 0 true
  have h1 : isSizeMismatch (add_small_to_big_matrix_2d_periodically smallW1 bigW1 0 0 true) =
      true := t.1.mpr (by decide)
  exact ⟨h1, t.2 h1⟩

/-- C2 counterexample: the claim quantifies over every center offset,
but with commit true a center far enough outside the canvas makes the
first stepwise write hit a destination index below the valid numpy range
(here column index -4 on a 3-wide canvas), so the call raises IndexError
and returns no footprint at all, although the size precondition holds. -/
theorem embed_footprint_counterexample :
    small1.rows ≤ big3.rows ∧ small1.cols ≤ big3.cols ∧
    isOkE (add_small_to_big_matrix_2d_periodically big3 small1 (-7) 1 true) = false ∧
    exceptLists (add_small_to_big_matrix_2d_periodically big3 small1 (-7) 1 true) =
      none := by
  decide

/-- C2 amended: whenever the embedder returns at all (in either commit
mode), the returned column index list has exactly cols_small entries and
the returned row index list exactly rows_small entries, however many
sub-rectangles the write was split into, so the footprint cross product
has rows_small times cols_small cells. -/
theorem embed_footprint_lengths (big small : Mat) (ax ay : ℤ) (flag : Bool)
    (xl yl : List ℤ)
    (h : exceptLists (add_small_to_big_matrix_2d_periodically big small ax ay flag) =
      some (xl, yl)) :
    xl.length = small.cols ∧ yl.length = small.rows := by
  simp only [add_small_to_big_matrix_2d_periodically] at h
  by_cases hsz : big.rows < small.rows ∨ big.cols < small.cols
  · rw [if_pos hsz] at h
    simp only [exceptLists] at h
    exact Option.noConfusion h
  · rw [if_neg hsz] at h
    by_cases hox : (overflowLeftB small.cols ax ||
        overflowRightB big.cols small.cols ax) = true
    · by_cases hoy : (overflowTopB small.rows ay ||
          overflowBottomB big.rows small.rows ay) = true
      · rw [if_neg (by simp [hox]), if_neg (by simp [hoy]), if_neg (by simp [hox])] at h
        generalize hxsw : (if overflowRightB big.cols small.cols ax = true then
          xStepwiseRight big.cols small.cols (ax - ((small.cols / 2 : ℕ) : ℤ))
        else
          if overflowLeftB small.cols ax = true then
            xStepwiseLeft big.cols small.cols (ax - ((small.cols / 2 : ℕ) : ℤ))
              (ax - ((small.cols / 2 : ℕ) : ℤ) + (small.cols : ℤ) - 1)
          else ⟨[], [], [], []⟩) = xsw at h
        generalize hysw : (if overflowBottomB big.rows small.rows ay = true then
          yStepwiseBottom big.rows small.rows (ay - ((small.rows / 2 : ℕ) : ℤ))
        else
          if overflowTopB small.rows ay = true then
            yStepwiseTop big.rows small.rows (ay - ((small.rows / 2 : ℕ) : ℤ))
              (ay - ((small.rows / 2 : ℕ) : ℤ) + (small.rows : ℤ) - 1)
          else ⟨[], [], [], []⟩) = ysw at h
        repeat' split at h
        all_goals simp only [exceptLists, Option.some.injEq, Prod.mk.injEq] at h
        all_goals first
        | exact Option.noConfusion h
        | (obtain ⟨h1, h2⟩ := h
           subst h1
           subst h2
           refine ⟨?_, ?_⟩
           · rw [← hxsw, List.length_append]
             by_cases hR : overflowRightB big.cols small.cols ax = true
             · rw [if_pos hR]
               refine xStepwiseRight_sum _ _ _ ?_
               simp only [overflowRightB, decide_eq_true_eq] at hR
               omega
             · rw [if_neg hR]
               rw [Bool.not_eq_true] at hR
               simp only [hR, Bool.or_false] at hox
               rw [if_pos hox]
               refine xStepwiseLeft_sum _ _ _ ?_
               simp only [overflowLeftB, decide_eq_true_eq] at hox
               omega
           · rw [← hysw, List.length_append]
             by_cases hB : overflowBottomB big.rows small.rows ay = true
             · rw [if_pos hB]
               refine yStepwiseBottom_sum _ _ _ ?_
               simp only [overflowBottomB, decide_eq_true_eq] at hB
               omega
             · rw [if_neg hB]
               rw [Bool.not_eq_true] at hB
               simp only [hB, Bool.or_false] at hoy
               rw [if_pos hoy]
               refine yStepwiseTop_sum _ _ _ ?_
               simp only [overflowTopB, decide_eq_true_eq] at hoy
               omega)
      · rw [Bool.not_eq_true] at hoy
        rw [if_neg (by simp [hox]), if_pos ⟨hox, hoy⟩] at h
        generalize hxsw : (if overflowRightB big.cols small.cols ax = true then
          xStepwiseRight big.cols small.cols (ax - ((small.cols / 2 : ℕ) : ℤ))
        else
          if overflowLeftB small.cols ax = true then
            xStepwiseLeft big.cols small.cols (ax - ((small.cols / 2 : ℕ) : ℤ))
              (ax - ((small.cols / 2 : ℕ) : ℤ) + (small.cols : ℤ) - 1)
          else ⟨[], [], [], []⟩) = xsw at h
        repeat' split at h
        all_goals simp only [exceptLists, Option.some.injEq, Prod.mk.injEq] at h
        all_goals first
        | exact Option.noConfusion h
        | (obtain ⟨h1, h2⟩ := h
           subst h1
           subst h2
           refine ⟨?_, ?_⟩
           · rw [← hxsw, List.length_append]
             by_cases hR : overflowRightB big.cols small.cols ax = true
             · rw [if_pos hR]
               refine xStepwiseRight_sum _ _ _ ?_
               simp only [overflowRightB, decide_eq_true_eq] at hR
               omega
             · rw [if_neg hR]
               rw [Bool.not_eq_true] at hR
               simp only [hR, Bool.or_false] at hox
               rw [if_pos hox]
               refine xStepwiseLeft_sum _ _ _ ?_
               simp only [overflowLeftB, decide_eq_true_eq] at hox
               omega
           · rw [intRange_length]
             omega)
    · rw [Bool.not_eq_true] at hox
      by_cases hoy : (overflowTopB small.rows ay ||
          overflowBottomB big.rows small.rows ay) = true
      · rw [if_neg (by simp [hoy]), if_neg (by simp [hoy]), if_pos ⟨hox, hoy⟩] at h
        generalize hysw : (if overflowBottomB big.rows small.rows ay = true then
          yStepwiseBottom big.rows small.rows (ay - ((small.rows / 2 : ℕ) : ℤ))
        else
          if overflowTopB small.rows ay = true then
            yStepwiseTop big.rows small.rows (ay - ((small.rows / 2 : ℕ) : ℤ))
              (ay - ((small.rows / 2 : ℕ) : ℤ) + (small.rows : ℤ) - 1)
          else ⟨[], [], [], []⟩) = ysw at h
        repeat' split at h
        all_goals simp only [exceptLists, Option.some.injEq, Prod.mk.injEq] at h
        all_goals first
        | exact Option.noConfusion h
        | (obtain ⟨h1, h2⟩ := h
           subst h1
           subst h2
           refine ⟨?_, ?_⟩
           · rw [intRange_length]
             omega
           · rw [← hysw, List.length_append]
             by_cases hB : overflowBottomB big.rows small.rows ay = true
             · rw [if_pos hB]
               refine yStepwiseBottom_sum _ _ _ ?_
               simp only [overflowBottomB, decide_eq_true_eq] at hB
               omega
             · rw [if_neg hB]
               rw [Bool.not_eq_true] at hB
               simp only [hB, Bool.or_false] at hoy
               rw [if_pos hoy]
               refine yStepwiseTop_sum _ _ _ ?_
               simp only [overflowTopB, decide_eq_true_eq] at hoy
               omega)
      · rw [Bool.not_eq_true] at hoy
        rw [if_pos ⟨hox, hoy⟩] at h
        repeat' split at h
        all_goals simp only [exceptLists, Option.some.injEq, Prod.mk.injEq] at h
        all_goals first
        | exact Option.noConfusion h
        | (obtain ⟨h1, h2⟩ := h
           subst h1
           subst h2
           refine ⟨?_, ?_⟩
           · rw [intRange_length]
             omega
           · rw [intRange_length]
             omega)

theorem embed_footprint_lengths_witness :
    exceptLists (add_small_to_big_matrix_2d_periodically big3 small1 (-1) 1 true) =
      some ([2], [1]) ∧ ([(2 : ℤ)].length = small1.cols ∧ [(1 : ℤ)].length = small1.rows) :=
  ⟨by decide, embed_footprint_lengths big3 small1 (-1) 1 true [2] [1] (by decide)⟩

theorem embed_false_shape (big small : Mat) (ax ay : ℤ)
    (hsz : ¬(big.rows < small.rows ∨ big.cols < small.cols)) :
    ∃ xl yl, add_small_to_big_matrix_2d_periodically big small ax ay false =
      .ok (big, xl, yl) := by
  simp only [add_small_to_big_matrix_2d_periodically]
  rw [if_neg hsz]
  by_cases hox : (overflowLeftB small.cols ax ||
      overflowRightB big.cols small.cols ax) = true
  · by_cases hoy : (overflowTopB small.rows ay ||
        overflowBottomB big.rows small.rows ay) = true
    · rw [if_neg (by simp [hox]), if_neg (by simp [hoy]), if_neg (by simp [hox]),
        if_neg Bool.false_ne_true]
      exact ⟨_, _, rfl⟩
    · rw [Bool.not_eq_true] at hoy
      rw [if_neg (by simp [hox]), if_pos ⟨hox, hoy⟩, if_neg Bool.false_ne_true]
      exact ⟨_, _, rfl⟩
  · rw [Bool.not_eq_true] at hox
    by_cases hoy : (overflowTopB small.rows ay ||
        overflowBottomB big.rows small.rows ay) = true
    · rw [if_neg (by simp [hoy]), if_neg (by simp [hoy]), if_pos ⟨hox, hoy⟩,
        if_neg Bool.false_ne_true]
      exact ⟨_, _, rfl⟩
    · rw [Bool.not_eq_true] at hoy
      rw [if_pos ⟨hox, hoy⟩, if_neg Bool.false_ne_true]
      exact ⟨_, _, rfl⟩

/-- C3 amended: with added_flag false the embedder is pure, returning
the canvas unchanged; whenever the added_flag true call returns a
footprint, the added_flag false call returns exactly the same column and
row index lists; and running the call first with added_flag false and
then with added_flag true from the same initial canvas always produces
the same outcome as the single added_flag true call.  The claim fails
only at centers where the added_flag true call raises IndexError while
the added_flag false call still returns (see the counterexample). -/
theorem embed_commit_parity (big small : Mat) (ax ay : ℤ) :
    (isOkE (add_small_to_big_matrix_2d_periodically big small ax ay false) = true →
      exceptCanvas (add_small_to_big_matrix_2d_periodically big small ax ay false) =
        some big) ∧
    (∀ xl yl,
      exceptLists (add_small_to_big_matrix_2d_periodically big small ax ay true) =
        some (xl, yl) →
      exceptLists (add_small_to_big_matrix_2d_periodically big small ax ay false) =
        some (xl, yl)) ∧
    embedTwice big small ax ay false true =
      add_small_to_big_matrix_2d_periodically big small ax ay true := by
  refine ⟨?_, ?_, ?_⟩
  · intro h
    by_cases hsz : big.rows < small.rows ∨ big.cols < small.cols
    · have hf : add_small_to_big_matrix_2d_periodically big small ax ay false =
          .error (.sizeMismatch, big) := by
        simp only [add_small_to_big_matrix_2d_periodically]
        rw [if_pos hsz]
      rw [hf] at h
      simp [isOkE] at h
    · obtain ⟨xl, yl, hf⟩ := embed_false_shape big small ax ay hsz
      rw [hf]
      rfl
  · intro xl yl h
    by_cases hsz : big.rows < small.rows ∨ big.cols < small.cols
    · have ht : add_small_to_big_matrix_2d_periodically big small ax ay true =
          .error (.sizeMismatch, big) := by
        simp only [add_small_to_big_matrix_2d_periodically]
        rw [if_pos hsz]
      rw [ht] at h
      simp [exceptLists] at h
    · simp only [add_small_to_big_matrix_2d_periodically] at h ⊢
      rw [if_neg hsz] at h ⊢
      by_cases hox : (overflowLeftB small.cols ax ||
          overflowRightB big.cols small.cols ax) = true
      · by_cases hoy : (overflowTopB small.rows ay ||
            overflowBottomB big.rows small.rows ay) = true
        · rw [if_neg (by simp [hox]), if_neg (by simp [hoy]),
            if_neg (by simp [hox])] at h ⊢
          generalize hxsw : (if overflowRightB big.cols small.cols ax = true then
          xStepwiseRight big.cols small.cols (ax - ((small.cols / 2 : ℕ) : ℤ))
        else
          if overflowLeftB small.cols ax = true then
            xStepwiseLeft big.cols small.cols (ax - ((small.cols / 2 : ℕ) : ℤ))
              (ax - ((small.cols / 2 : ℕ) : ℤ) + (small.cols : ℤ) - 1)
          else ⟨[], [], [], []⟩) = xsw at h ⊢
          generalize hysw : (if overflowBottomB big.rows small.rows ay = true then
          yStepwiseBottom big.rows small.rows (ay - ((small.rows / 2 : ℕ) : ℤ))
        else
          if overflowTopB small.rows ay = true then
            yStepwiseTop big.rows small.rows (ay - ((small.rows / 2 : ℕ) : ℤ))
              (ay - ((small.rows / 2 : ℕ) : ℤ) + (small.rows : ℤ) - 1)
          else ⟨[], [], [], []⟩) = ysw at h ⊢
          rw [if_pos trivial] at h
          rw [if_neg Bool.false_ne_true]
          repeat' split at h
          all_goals simp only [exceptLists, Option.some.injEq, Prod.mk.injEq] at h ⊢
          all_goals first
          | exact Option.noConfusion h
          | exact h
        · rw [Bool.not_eq_true] at hoy
          rw [if_neg (by simp [hox]), if_pos ⟨hox, hoy⟩] at h ⊢
          generalize hxsw : (if overflowRightB big.cols small.cols ax = true then
          xStepwiseRight big.cols small.cols (ax - ((small.cols / 2 : ℕ) : ℤ))
        else
          if overflowLeftB small.cols ax = true then
            xStepwiseLeft big.cols small.cols (ax - ((small.cols / 2 : ℕ) : ℤ))
              (ax - ((small.cols / 2 : ℕ) : ℤ) + (small.cols : ℤ) - 1)
          else ⟨[], [], [], []⟩) = xsw at h ⊢
          rw [if_pos trivial] at h
          rw [if_neg Bool.false_ne_true]
          repeat' split at h
          all_goals simp only [exceptLists, Option.some.injEq, Prod.mk.injEq] at h ⊢
          all_goals first
          | exact Option.noConfusion h
          | exact h
      · rw [Bool.not_eq_true] at hox
        by_cases hoy : (overflowTopB small.rows ay ||
            overflowBottomB big.rows small.rows ay) = true
        · rw [if_neg (by simp [hoy]), if_neg (by simp [hoy]),
            if_pos ⟨hox, hoy⟩] at h ⊢
          generalize hysw : (if overflowBottomB big.rows small.rows ay = true then
          yStepwiseBottom big.rows small.rows (ay - ((small.rows / 2 : ℕ) : ℤ))
        else
          if overflowTopB small.rows ay = true then
            yStepwiseTop big.rows small.rows (ay - ((small.rows / 2 : ℕ) : ℤ))
              (ay - ((small.rows / 2 : ℕ) : ℤ) + (small.rows : ℤ) - 1)
          else ⟨[], [], [], []⟩) = ysw at h ⊢
          rw [if_pos trivial] at h
          rw [if_neg Bool.false_ne_true]
          repeat' split at h
          all_goals simp only [exceptLists, Option.some.injEq, Prod.mk.injEq] at h ⊢
          all_goals first
          | exact Option.noConfusion h
          | exact h
        · rw [Bool.not_eq_true] at hoy
          rw [if_pos ⟨hox, hoy⟩] at h ⊢
          rw [if_pos trivial] at h
          rw [if_neg Bool.false_ne_true]
          repeat' split at h
          all_goals simp only [exceptLists, Option.some.injEq, Prod.mk.injEq] at h ⊢
          all_goals first
          | exact Option.noConfusion h
          | exact h
  · by_cases hsz : big.rows < small.rows ∨ big.cols < small.cols
    · have hf : add_small_to_big_matrix_2d_periodically big small ax ay false =
          .error (.sizeMismatch, big) := by
        simp only [add_small_to_big_matrix_2d_periodically]
        rw [if_pos hsz]
      have ht : add_small_to_big_matrix_2d_periodically big small ax ay true =
          .error (.sizeMismatch, big) := by
        simp only [add_small_to_big_matrix_2d_periodically]
        rw [if_pos hsz]
      simp only [embedTwice]
      rw [hf]
      exact ht.symm
    · obtain ⟨xl, yl, hf⟩ := embed_false_shape big small ax ay hsz
      simp only [embedTwice]
      rw [hf]

/-- C3 counterexample: at a center far outside the canvas the
added_flag false call returns a footprint while the added_flag true call
on the same inputs raises IndexError, so the two calls do not report
identical footprints as the claim states. -/
theorem embed_commit_parity_counterexample :
    isOkE (add_small_to_big_matrix_2d_periodically big3 small1 1 (-7) false) = true ∧
    isOkE (add_small_to_big_matrix_2d_periodically big3 small1 1 (-7) true) = false := by
  decide

theorem embed_commit_parity_witness :
    exceptCanvas (add_small_to_big_matrix_2d_periodically big3 small1 0 (-1) false) =
      some big3 ∧
    exceptLists (add_small_to_big_matrix_2d_periodically big3 small1 0 (-1) false) =
      some ([0], [2]) ∧
    embedTwice big3 small1 0 (-1) false true =
      add_small_to_big_matrix_2d_periodically big3 small1 0 (-1) true := by
  refine ⟨(embed_commit_parity big3 small1 0 (-1)).1 (by decide),
    (embed_commit_parity big3 small1 0 (-1)).2.1 [0] [2] (by decide),
    (embed_commit_parity big3 small1 0 (-1)).2.2⟩

theorem find?_range'_first (p : ℕ → Bool) (a b : ℕ) :
    ∀ n s, (∀ i, s ≤ i → i < s + n → (p i = true ↔ (a ≤ i ∧ i ≤ b))) →
      s ≤ a → a ≤ b → b < s + n → (List.range' s n).find? p = some a := by
  intro n
  induction n with
  | zero =>
    intro s hp hsa hab hbn
    exact ((by omega : False)).elim
  | succ m ih =>
    intro s hp hsa hab hbn
    rw [List.range'_succ, List.find?_cons]
    by_cases hs : s = a
    · subst hs
      have : p s = true := (hp s (le_refl s) (by omega)).mpr ⟨le_refl s, hab⟩
      rw [this]
    · have hps : p s = false := by
        rw [Bool.eq_false_iff]
        intro hcon
        have := (hp s (le_refl s) (by omega)).mp hcon
        omega
      rw [hps]
      exact ih (s + 1) (fun i h1 h2 => hp i (by omega) (by omega))
        (by omega) hab (by omega)

theorem find?_range'_rev_last (p : ℕ → Bool) (a b : ℕ) :
    ∀ n s, (∀ i, s ≤ i → i < s + n → (p i = true ↔ (a ≤ i ∧ i ≤ b))) →
      s ≤ a → a ≤ b → b < s + n → (List.range' s n).reverse.find? p = some b := by
  intro n
  induction n with
  | zero =>
    intro s hp hsa hab hbn
    exact ((by omega : False)).elim
  | succ m ih =>
    intro s hp hsa hab hbn
    rw [List.range'_1_concat, List.reverse_append]
    simp only [List.reverse_singleton, List.singleton_append, List.find?_cons]
    by_cases hb : s + m = b
    · have : p (s + m) = true := (hp (s + m) (by omega) (by omega)).mpr (by omega)
      rw [this, hb]
    · have hps : p (s + m) = false := by
        rw [Bool.eq_false_iff]
        intro hcon
        have := (hp (s + m) (by omega) (by omega)).mp hcon
        omega
      rw [hps]
      exact ih s (fun i h1 h2 => hp i (by omega) (by omega)) hsa hab (by omega)

theorem find?_range'_none (p : ℕ → Bool) (n s : ℕ)
    (hp : ∀ i, s ≤ i → i < s + n → p i = false) :
    (List.range' s n).find? p = none := by
  rw [List.find?_eq_none]
  intro x hx
  rw [List.mem_range'_1] at hx
  simp [hp x hx.1 hx.2]

theorem find?_range'_rev_none (p : ℕ → Bool) (n s : ℕ)
    (hp : ∀ i, s ≤ i → i < s + n → p i = false) :
    (List.range' s n).reverse.find? p = none := by
  rw [List.find?_eq_none]
  intro x hx
  rw [List.mem_reverse, List.mem_range'_1] at hx
  simp [hp x hx.1 hx.2]

theorem getD_map_range (f : ℕ → ℕ) (n i : ℕ) (h : i < n) :
    ((List.range n).map f).getD i 0 = f i := by
  rw [List.getD_eq_getElem?_getD, List.getElem?_map, List.getElem?_range h]
  rfl

/-- Characterization of find_border on the counts of an interval image:
the counts are nonzero exactly on positions lo..hi; when hi is at least
1, the forward scan from index 1 yields max lo 1 minus one and the
backward scan yields hi plus one. -/
theorem find_border_interval (f : ℕ → ℕ) (n lo hi : ℕ)
    (hne : ∀ j, f j ≠ 0 ↔ (lo ≤ j ∧ j ≤ hi))
    (hhin : hi < n) (h1 : 1 ≤ hi) (hlohi : lo ≤ hi) :
    find_border ((List.range n).map f) = (((max lo 1 : ℕ) : ℤ) - 1, (hi : ℤ) + 1) := by
  have hlen : ((List.range n).map f).length = n := by simp
  have hp : ∀ i, 1 ≤ i → i < 1 + (n - 1) →
      ((fun i => decide (((List.range n).map f).getD i 0 ≠ 0)) i = true ↔
        (max lo 1 ≤ i ∧ i ≤ hi)) := by
    intro i hi1 hi2
    simp only [decide_eq_true_eq]
    rw [getD_map_range f n i (by omega), hne i]
    omega
  unfold find_border
  rw [hlen]
  dsimp only
  rw [find?_range'_first _ (max lo 1) hi (n - 1) 1 hp (by omega) (by omega) (by omega)]
  rw [find?_range'_rev_last _ (max lo 1) hi (n - 1) 1 hp (by omega) (by omega) (by omega)]

/-- C6 counterexample: for the 2 by 2 image whose only nonzero cell is
(0, 1), the claim predicts the clipped boundary [0, 1, 0, 1], but the
code returns [0, 2, -1, -1]: the right bound c1 + 1 = 2 is not clipped
into the valid index range, and the row scans skip index 0 entirely, so
a rectangle confined to row 0 yields the sentinels -1. -/
theorem boundary_rect_counterexample :
    get_boundary (rectImage 2 2 0 0 1 1 1) 0 = [0, 2, -1, -1] ∧
    get_boundary (rectImage 2 2 0 0 1 1 1) 0 ≠ [0, 1, 0, 1] := by
  constructor
  · decide
  · decide

/-- C6 amended: for a single solid rectangle of positive value spanning
rows r0..r1 and columns c0..c1 with r1 and c1 at least 1, boundary
detection at threshold 0 returns left = c0 - 1 clipped below to 0,
right = c1 + 1 not clipped, top = r0 - 1 clipped below to 0 and
bottom = r1 + 1 not clipped.  Rectangles confined to index 0 on some
axis instead produce the sentinel -1 on that axis, and the upper bounds
may equal the image size, so the original clipping clause fails. -/
theorem boundary_rect_amended (rows cols r0 r1 c0 c1 : ℕ) (v : ℚ) (hv : 0 < v)
    (hr01 : r0 ≤ r1) (hr1 : r1 < rows) (hc01 : c0 ≤ c1) (hc1 : c1 < cols)
    (h1r : 1 ≤ r1) (h1c : 1 ≤ c1) :
    get_boundary (rectImage rows cols r0 r1 c0 c1 v) 0 =
      [max ((c0 : ℤ) - 1) 0, (c1 : ℤ) + 1, max ((r0 : ℤ) - 1) 0, (r1 : ℤ) + 1] := by
  unfold get_boundary rectImage
  dsimp only
  have hne1 : ∀ j, (fun j => (List.range rows).countP
      (fun i => decide ((0 : ℚ) <
        if r0 ≤ i ∧ i ≤ r1 ∧ c0 ≤ j ∧ j ≤ c1 then v else 0))) j ≠ 0 ↔
      (c0 ≤ j ∧ j ≤ c1) := by
    intro j
    constructor
    · intro hne0
      obtain ⟨i, hi, hdec⟩ := List.countP_pos_iff.mp (Nat.pos_of_ne_zero hne0)
      simp only [decide_eq_true_eq] at hdec
      by_cases hcond : r0 ≤ i ∧ i ≤ r1 ∧ c0 ≤ j ∧ j ≤ c1
      · exact ⟨hcond.2.2.1, hcond.2.2.2⟩
      · rw [if_neg hcond] at hdec
        exact absurd hdec (lt_irrefl 0)
    · rintro ⟨h1, h2⟩
      refine Nat.pos_iff_ne_zero.mp (List.countP_pos_iff.mpr ⟨r0, ?_, ?_⟩)
      · rw [List.mem_range]
        omega
      · simp only [decide_eq_true_eq]
        rw [if_pos ⟨le_refl r0, hr01, h1, h2⟩]
        exact hv
  have hne2 : ∀ i, (fun i => (List.range cols).countP
      (fun j => decide ((0 : ℚ) <
        if r0 ≤ i ∧ i ≤ r1 ∧ c0 ≤ j ∧ j ≤ c1 then v else 0))) i ≠ 0 ↔
      (r0 ≤ i ∧ i ≤ r1) := by
    intro i
    constructor
    · intro hne0
      obtain ⟨j, hj, hdec⟩ := List.countP_pos_iff.mp (Nat.pos_of_ne_zero hne0)
      simp only [decide_eq_true_eq] at hdec
      by_cases hcond : r0 ≤ i ∧ i ≤ r1 ∧ c0 ≤ j ∧ j ≤ c1
      · exact ⟨hcond.1, hcond.2.1⟩
      · rw [if_neg hcond] at hdec
        exact absurd hdec (lt_irrefl 0)
    · rintro ⟨h1, h2⟩
      refine Nat.pos_iff_ne_zero.mp (List.countP_pos_iff.mpr ⟨c0, ?_, ?_⟩)
      · rw [List.mem_range]
        omega
      · simp only [decide_eq_true_eq]
        rw [if_pos ⟨h1, h2, le_refl c0, hc01⟩]
        exact hv
  rw [find_border_interval _ cols c0 c1 hne1 hc1 h1c hc01]
  rw [find_border_interval _ rows r0 r1 hne2 hr1 h1r hr01]
  have e1 : ((max c0 1 : ℕ) : ℤ) - 1 = max ((c0 : ℤ) - 1) 0 := by omega
  have e2 : ((max r0 1 : ℕ) : ℤ) - 1 = max ((r0 : ℤ) - 1) 0 := by omega
  rw [e1, e2]

theorem boundary_rect_amended_witness :
    (0 : ℚ) < 2 ∧
    get_boundary (rectImage 8 9 2 5 3 6 2) 0 =
      [max ((3 : ℤ) - 1) 0, (6 : ℤ) + 1, max ((2 : ℤ) - 1) 0, (5 : ℤ) + 1] :=
  ⟨by norm_num,
    boundary_rect_amended 8 9 2 5 3 6 2 (by norm_num) (by omega) (by omega)
      (by omega) (by omega) (by omega) (by omega)⟩

/-- C7 counterexample: on a canvas of odd width 3 with nudge dx = 1 at
slider percentage 0.5, the code computes round(3 * 0.5 + 1) = round(2.5)
= 2 and round(3 / 2) = round(1.5) = 2 under round-half-to-even, so the
display offset is 0, not 1: the round trip drifts for odd dimensions
with odd nudges. -/
theorem display_offset_counterexample :
    displayOffsetAt50 3 1 = 0 ∧ (0 : ℤ) ≠ 1 := by
  decide

/-- C7 amended: at slider percentages 0.5 the display offset is exactly
(0, 0) when dx = dy = 0, and the display offset reproduces the nudge
exactly whenever the canvas dimension is even or the nudge is even; for
an odd dimension and an odd nudge it can differ by one, as the
counterexample shows. -/
theorem display_offset_roundtrip (w : ℕ) (d : ℤ) :
    displayOffsetAt50 w 0 = 0 ∧
    ((Even (w : ℤ) ∨ Even d) → displayOffsetAt50 w d = d) := by
  constructor
  · unfold displayOffsetAt50 rightCenterAt50
    rw [show (w : ℤ) + 2 * 0 = (w : ℤ) from by ring]
    exact sub_self _
  · intro h
    have h2 : (w : ℤ) % 2 = 0 ∨ d % 2 = 0 := by
      rcases h with h | h
      · exact Or.inl (Int.even_iff.mp h)
      · exact Or.inr (Int.even_iff.mp h)
    unfold displayOffsetAt50 rightCenterAt50 pyRoundHalves
    split_ifs <;> omega

theorem display_offset_roundtrip_witness :
    (Even ((4 : ℕ) : ℤ) ∨ Even (3 : ℤ)) ∧ displayOffsetAt50 4 3 = 3 :=
  ⟨Or.inl (by decide), (display_offset_roundtrip 4 3).2 (Or.inl (by decide))⟩

/-- C8: the per-field stitch body computes the elementwise sum of the
two preconditioned tiles, replaces every cell where the sum strictly
exceeds the left value alone by the right value, crops rows to the slice
boundary[2] : boundary[3] and columns to boundary[0] : boundary[1], and
transposes exactly when the transpose flag is set; stated as the
pointwise characterization of the output dimensions and entries. -/
theorem stitch_field_pointwise (l r : Mat) (b0 b1 b2 b3 : ℤ) (t : Bool)
    (_hrr : r.rows = l.rows) (_hrc : r.cols = l.cols) (i j : ℕ) :
    ((stitchField l r [b0, b1, b2, b3] t).rows =
      if t then sliceLen l.cols b0 b1 else sliceLen l.rows b2 b3) ∧
    ((stitchField l r [b0, b1, b2, b3] t).cols =
      if t then sliceLen l.rows b2 b3 else sliceLen l.cols b0 b1) ∧
    ((stitchField l r [b0, b1, b2, b3] t).entry i j =
      (fun p : ℕ × ℕ =>
        if l.entry p.1 p.2 < l.entry p.1 p.2 + r.entry p.1 p.2 then r.entry p.1 p.2
        else l.entry p.1 p.2 + r.entry p.1 p.2)
      (if t then (sliceIdx l.rows b2 + j, sliceIdx l.cols b0 + i)
        else (sliceIdx l.rows b2 + i, sliceIdx l.cols b0 + j))) := by
  cases t
  · exact ⟨rfl, rfl, rfl⟩
  · exact ⟨rfl, rfl, rfl⟩

theorem stitch_field_pointwise_witness :
    onesW4.rows = bigW1.rows ∧ onesW4.cols = bigW1.cols ∧
    (((stitchField bigW1 onesW4 [0, 2, 0, 2] false).rows =
      if false then sliceLen bigW1.cols 0 2 else sliceLen bigW1.rows 0 2) ∧
    ((stitchField bigW1 onesW4 [0, 2, 0, 2] false).cols =
      if false then sliceLen bigW1.rows 0 2 else sliceLen bigW1.cols 0 2) ∧
    ((stitchField bigW1 onesW4 [0, 2, 0, 2] false).entry 0 0 =
      (fun p : ℕ × ℕ =>
        if bigW1.entry p.1 p.2 < bigW1.entry p.1 p.2 + onesW4.entry p.1 p.2 then
          onesW4.entry p.1 p.2
        else bigW1.entry p.1 p.2 + onesW4.entry p.1 p.2)
      (if false then (sliceIdx bigW1.rows 0 + 0, sliceIdx bigW1.cols 0 + 0)
        else (sliceIdx bigW1.rows 0 + 0, sliceIdx bigW1.cols 0 + 0)))) :=
  ⟨rfl, rfl, stitch_field_pointwise bigW1 onesW4 0 2 0 2 false rfl rfl 0 0⟩

/-- C9 counterexample: on a concrete composite the boundary actually
used by stitch is the raw get_boundary output of the luma image at
threshold 0, which differs from the same boundary expanded by the 5
percent margin the spec describes: no margin expansion and no zoom
narrowing exist in the code. -/
theorem stitch_boundary_margin_counterexample :
    stitchBoundary compC9 = [1, 13, 1, 13] ∧
    specMarginExpand (stitchBoundary compC9) 16 16 = [0, 14, 0, 14] ∧
    stitchBoundary compC9 ≠ specMarginExpand (stitchBoundary compC9) 16 16 := by
  have hgray : stitchBoundary compC9 = [1, 13, 1, 13] := by
    unfold stitchBoundary get_boundary rgb2grayM compC9
    dsimp only
    have hne1 : ∀ j, (fun j => (List.range 16).countP
        (fun i => decide ((0 : ℚ) <
          (2125 / 10000 : ℚ) * (if (0 : ℕ) = 0 ∧ 2 ≤ i ∧ i ≤ 12 ∧ 2 ≤ j ∧ j ≤ 12 then 1 else 0) +
          (7154 / 10000 : ℚ) * (if (1 : ℕ) = 0 ∧ 2 ≤ i ∧ i ≤ 12 ∧ 2 ≤ j ∧ j ≤ 12 then 1 else 0) +
          (721 / 10000 : ℚ) * (if (2 : ℕ) = 0 ∧ 2 ≤ i ∧ i ≤ 12 ∧ 2 ≤ j ∧ j ≤ 12 then 1 else 0)))) j ≠ 0 ↔
        (2 ≤ j ∧ j ≤ 12) := by
      intro j
      constructor
      · intro hne0
        obtain ⟨i, hi, hdec⟩ := List.countP_pos_iff.mp (Nat.pos_of_ne_zero hne0)
        simp only [decide_eq_true_eq] at hdec
        by_cases hcond : 2 ≤ i ∧ i ≤ 12 ∧ 2 ≤ j ∧ j ≤ 12
        · exact ⟨hcond.2.2.1, hcond.2.2.2⟩
        · rw [if_neg (by tauto), if_neg (by norm_num), if_neg (by norm_num)] at hdec
          norm_num at hdec
      · rintro ⟨h1, h2⟩
        refine Nat.pos_iff_ne_zero.mp (List.countP_pos_iff.mpr ⟨2, ?_, ?_⟩)
        · rw [List.mem_range]
          omega
        · simp only [decide_eq_true_eq]
          rw [if_pos (⟨by trivial, by norm_num, by norm_num, h1, h2⟩ :
              _ ∧ _ ∧ _ ∧ _ ∧ _), if_neg (by norm_num), if_neg (by norm_num)]
          norm_num
    have hne2 : ∀ i, (fun i => (List.range 16).countP
        (fun j => decide ((0 : ℚ) <
          (2125 / 10000 : ℚ) * (if (0 : ℕ) = 0 ∧ 2 ≤ i ∧ i ≤ 12 ∧ 2 ≤ j ∧ j ≤ 12 then 1 else 0) +
          (7154 / 10000 : ℚ) * (if (1 : ℕ) = 0 ∧ 2 ≤ i ∧ i ≤ 12 ∧ 2 ≤ j ∧ j ≤ 12 then 1 else 0) +
          (721 / 10000 : ℚ) * (if (2 : ℕ) = 0 ∧ 2 ≤ i ∧ i ≤ 12 ∧ 2 ≤ j ∧ j ≤ 12 then 1 else 0)))) i ≠ 0 ↔
        (2 ≤ i ∧ i ≤ 12) := by
      intro i
      constructor
      · intro hne0
        obtain ⟨j, hj, hdec⟩ := List.countP_pos_iff.mp (Nat.pos_of_ne_zero hne0)
        simp only [decide_eq_true_eq] at hdec
        by_cases hcond : 2 ≤ i ∧ i ≤ 12 ∧ 2 ≤ j ∧ j ≤ 12
        · exact ⟨hcond.1, hcond.2.1⟩
        · rw [if_neg (by tauto), if_neg (by norm_num), if_neg (by norm_num)] at hdec
          norm_num at hdec
      · rintro ⟨h1, h2⟩
        refine Nat.pos_iff_ne_zero.mp (List.countP_pos_iff.mpr ⟨2, ?_, ?_⟩)
        · rw [List.mem_range]
          omega
        · simp only [decide_eq_true_eq]
          rw [if_pos (⟨by trivial, h1, h2, by norm_num, by norm_num⟩ :
              _ ∧ _ ∧ _ ∧ _ ∧ _), if_neg (by norm_num), if_neg (by norm_num)]
          norm_num
    rw [find_border_interval _ 16 2 12 hne1 (by omega) (by omega) (by omega)]
    rw [find_border_interval _ 16 2 12 hne2 (by omega) (by omega) (by omega)]
    norm_num
  have hround : pyRoundQ (((13 - 1 : ℤ) : ℚ) * (5 / 100)) = 1 := by
    have hval : (((13 - 1 : ℤ) : ℚ) * (5 / 100)) = 3 / 5 := by norm_num
    rw [hval]
    have hfloor : ⌊(3 / 5 : ℚ)⌋ = 0 := by
      rw [Int.floor_eq_iff]
      norm_num
    unfold pyRoundQ
    rw [hfloor]
    norm_num
  have hexp : specMarginExpand [1, 13, 1, 13] 16 16 = [0, 14, 0, 14] := by
    unfold specMarginExpand
    dsimp only
    rw [show ([1, 13, 1, 13] : List ℤ).getD 0 0 = 1 from by decide,
      show ([1, 13, 1, 13] : List ℤ).getD 1 0 = 13 from by decide,
      show ([1, 13, 1, 13] : List ℤ).getD 2 0 = 1 from by decide,
      show ([1, 13, 1, 13] : List ℤ).getD 3 0 = 13 from by decide]
    rw [hround]
    decide
  refine ⟨hgray, by rw [hgray]; exact hexp, by rw [hgray, hexp]; decide⟩

/-- C9 amended: the boundary used by the stitch loop is computed once
from the compare composite as get_boundary of its luma conversion at
threshold 0 and is applied directly as the crop bounds: the output
dimensions of every stitched field are the slice lengths of the raw
boundary components, with no margin expansion and no zoom narrowing. -/
theorem stitch_boundary_direct (l r : Mat) (cimg : Mat3) (t : Bool) :
    stitchBoundary cimg = get_boundary (rgb2grayM cimg) 0 ∧
    stitchOne l r cimg t = stitchField l r (get_boundary (rgb2grayM cimg) 0) t ∧
    ((stitchOne l r cimg t).rows =
      if t then
        sliceLen l.cols ((get_boundary (rgb2grayM cimg) 0).getD 0 0)
          ((get_boundary (rgb2grayM cimg) 0).getD 1 0)
      else
        sliceLen l.rows ((get_boundary (rgb2grayM cimg) 0).getD 2 0)
          ((get_boundary (rgb2grayM cimg) 0).getD 3 0)) ∧
    ((stitchOne l r cimg t).cols =
      if t then
        sliceLen l.rows ((get_boundary (rgb2grayM cimg) 0).getD 2 0)
          ((get_boundary (rgb2grayM cimg) 0).getD 3 0)
      else
        sliceLen l.cols ((get_boundary (rgb2grayM cimg) 0).getD 0 0)
          ((get_boundary (rgb2grayM cimg) 0).getD 1 0)) := by
  cases t
  · exact ⟨rfl, rfl, rfl, rfl⟩
  · exact ⟨rfl, rfl, rfl, rfl⟩

theorem removeAllAux_no_occur (pat : List Char) :
    ∀ fuel s, (¬ pat <:+: s) → removeAllAux pat fuel s = s := by
  intro fuel
  induction fuel with
  | zero =>
    intro s hocc
    rfl
  | succ m ih =>
    intro s hocc
    cases s with
    | nil => rfl
    | cons c rest =>
      rw [removeAllAux]
      rw [if_neg ?hneg]
      case hneg =>
        rintro ⟨hne, hpre⟩
        exact hocc (List.isPrefixOf_iff_prefix.mp hpre).isInfix
      rw [ih rest (fun hinf => hocc (List.infix_cons hinf))]

theorem removeAll_append_no_occur (p s : List Char)
    (h : p = [] ∨ ¬ p <:+: s) : removeAll (p ++ s) p = s := by
  cases hp : p with
  | nil =>
    rw [removeAll, if_pos rfl]
    rfl
  | cons a p2 =>
    subst hp
    have hocc : ¬ (a :: p2) <:+: s := by
      rcases h with h | h
      · exact absurd h (List.cons_ne_nil a p2)
      · exact h
    rw [removeAll, if_neg (List.cons_ne_nil a p2)]
    rw [show (a :: p2) ++ s = a :: (p2 ++ s) from rfl]
    rw [show (a :: (p2 ++ s)).length = (p2 ++ s).length + 1 from rfl]
    rw [removeAllAux]
    rw [if_pos ⟨List.cons_ne_nil a p2,
      List.isPrefixOf_iff_prefix.mpr ⟨s, rfl⟩⟩]
    rw [show List.drop (a :: p2).length (a :: (p2 ++ s)) = s from by
      rw [← List.cons_append, List.drop_left]]
    exact removeAllAux_no_occur (a :: p2) (p2 ++ s).length s hocc

/-- C10 counterexample: for the names abab and abX the common prefix is
ab, and the claim predicts abab_X, but str.replace deletes every
occurrence of ab from abab, so the code returns ab_X. -/
theorem task_name_counterexample :
    getTaskName ['a', 'b', 'a', 'b'] ['a', 'b', 'X'] = some ['a', 'b', '_', 'X'] ∧
    getTaskName ['a', 'b', 'a', 'b'] ['a', 'b', 'X'] ≠
      some ['a', 'b', 'a', 'b', '_', 'X'] := by
  constructor
  · decide
  · decide

/-- C10 amended: get_task_name returns none exactly when the two names
are identical; otherwise it returns the common prefix followed by both
names with every occurrence of the common prefix deleted, joined by an
underscore, and this coincides with prefix plus left suffix, underscore,
right suffix whenever the common prefix occurs in each name only as its
leading occurrence. -/
theorem task_name_spec (a b : List Char) :
    (getTaskName a b = none ↔ a = b) ∧
    (a ≠ b →
      getTaskName a b = some (commonPrefixOf a b ++ removeAll a (commonPrefixOf a b) ++
        ['_'] ++ removeAll b (commonPrefixOf a b))) ∧
    (∀ sa sb, a = commonPrefixOf a b ++ sa → b = commonPrefixOf a b ++ sb →
      (commonPrefixOf a b = [] ∨
        (¬ commonPrefixOf a b <:+: sa ∧ ¬ commonPrefixOf a b <:+: sb)) →
      a ≠ b →
      getTaskName a b = some (commonPrefixOf a b ++ sa ++ ['_'] ++ sb)) := by
  refine ⟨?_, ?_, ?_⟩
  · constructor
    · intro h
      by_cases hab : a = b
      · exact hab
      · rw [getTaskName, if_neg hab] at h
        exact Option.noConfusion h
    · intro h
      rw [getTaskName, if_pos h]
  · intro hab
    rw [getTaskName, if_neg hab]
  · intro sa sb ha hb hocc hab
    rw [getTaskName, if_neg hab]
    generalize hP : commonPrefixOf a b = P at ha hb hocc ⊢
    show some (P ++ removeAll a P ++ ['_'] ++ removeAll b P) =
      some (P ++ sa ++ ['_'] ++ sb)
    rw [ha, hb]
    rw [removeAll_append_no_occur P sa ?_, removeAll_append_no_occur P sb ?_]
    · rcases hocc with h0 | ⟨_, h2⟩
      · exact Or.inl h0
      · exact Or.inr h2
    · rcases hocc with h0 | ⟨h1, _⟩
      · exact Or.inl h0
      · exact Or.inr h1

theorem task_name_spec_witness :
    (['a', 'b', 'c'] ≠ ['a', 'b', 'd']) ∧
    getTaskName ['a', 'b', 'c'] ['a', 'b', 'd'] =
      some (commonPrefixOf ['a', 'b', 'c'] ['a', 'b', 'd'] ++ ['c'] ++ ['_'] ++ ['d']) :=
  ⟨by decide,
    (task_name_spec ['a', 'b', 'c'] ['a', 'b', 'd']).2.2 ['c'] ['d'] (by decide) (by decide)
      (Or.inr ⟨by decide, by decide⟩) (by decide)⟩
